import Mathlib

/-
Verification of the zendro-bulk-create library (src/index.js) against its
natural-language specification.  The JavaScript source is shallowly embedded:
JS objects become association lists in insertion order, JS strings become
Lean strings, fallible code returns Except, and the platform library
functions used by the source (JSON.parse, JSON.stringify, String.split,
Array.join) are modelled at their boundary on the value shapes the source
actually feeds them.
-/

/-- JS string split helper: consume a separator at the head of a character
list, returning the remainder after the separator, or none when the list
does not start with the separator. -/
def dropSep : List Char → List Char → Option (List Char)
  | [], l => some l
  | _ :: _, [] => none
  | p :: ps, c :: cs => if p = c then dropSep ps cs else none

/-- Worker for jsSplit.  The fuel argument is an upper bound on the number of
characters still to scan (every step consumes at least one character when the
separator is nonempty, so fuel equal to the input length never runs out). -/
def jsSplitGo (sep : List Char) : Nat → List Char → List Char → List String
  | 0, l, cur => [String.mk (cur.reverse ++ l)]
  | _ + 1, [], cur => [String.mk cur.reverse]
  | fuel + 1, c :: rest, cur =>
    match dropSep sep (c :: rest) with
    | some rem => String.mk cur.reverse :: jsSplitGo sep fuel rem []
    | none => jsSplitGo sep fuel rest (c :: cur)

/-- Boundary model of the JS String.prototype.split with a string separator:
splitting on the empty separator yields the list of characters, otherwise the
string is cut at every non-overlapping occurrence of the separator, keeping
empty pieces (so "a,".split(",") gives two pieces, the second empty). -/
def jsSplit (s sep : String) : List String :=
  match sep.data with
  | [] => s.data.map (fun c => String.mk [c])
  | c :: cs => jsSplitGo (c :: cs) s.data.length s.data []

/-- JS property lookup on an object modelled as an association list:
first binding wins (JS objects have unique keys). -/
def jsLookup {α : Type} : List (String × α) → String → Option α
  | [], _ => none
  | (k1, x) :: rest, k => if k1 = k then some x else jsLookup rest k

/-- JS property assignment on an object modelled as an association list:
overwrite the existing binding in place, or append a new one. -/
def jsSet {α : Type} : List (String × α) → String → α → List (String × α)
  | [], k, x => [(k, x)]
  | (k1, y) :: rest, k, x =>
    if k1 = k then (k, x) :: rest else (k1, y) :: jsSet rest k x

/-- JS array indexing with a possibly negative index: out-of-range and
negative indices yield undefined, modelled as none. -/
def jsIndex {α : Type} (l : List α) (i : Int) : Option α :=
  if 0 ≤ i then l.get? i.toNat else none

/-- The JS expression s.slice(0, s.length - 1) / s.slice(0, -1): drop the
last character (identity on the empty string). -/
def jsSlice0m1 (s : String) : String := String.mk s.data.dropLast

/-- Join a list of strings with a separator; boundary model of
Array.prototype.join (and of the implicit join performed by template
interpolation of a JS array, whose separator is a comma). -/
def strIntercal (sep : String) : List String → String
  | [] => ""
  | [x] => x
  | x :: y :: rest => x ++ sep ++ strIntercal sep (y :: rest)

/-- Concatenation of a list of strings. -/
def strJoin : List String → String
  | [] => ""
  | s :: rest => s ++ strJoin rest

/-- JSON scalar values, as produced by JSON.parse on the single-token inputs
the source feeds it.  Numbers are modelled as integers; the claims under
verification do not exercise fractional numbers. -/
inductive JsVal where
  | vstr (s : String)
  | vint (n : Int)
  | vbool (b : Bool)
  | vnull
deriving DecidableEq

/-- A flat JS object, as reconstructed by responseParser from an argument
list and as carried in an error input payload. -/
abbrev JsObj := List (String × JsVal)

/-- Escape one character the way JSON.stringify does for the characters the
claims exercise. -/
def escapeChar (c : Char) : List Char :=
  if c = '"' then ['\\', '"']
  else if c = '\\' then ['\\', '\\']
  else if c = '\n' then ['\\', 'n']
  else if c = '\r' then ['\\', 'r']
  else if c = '\t' then ['\\', 't']
  else [c]

/-- Boundary model of JSON.stringify on a string value. -/
def jsonStringify (s : String) : String :=
  String.mk ('"' :: (s.data.map escapeChar).flatten ++ ['"'])

/-- Undo JSON string escapes; none when the content is not a valid single
JSON string body (stray quote, dangling backslash, or an escape outside
this model such as a unicode escape). -/
def unescapeJson : List Char → Option (List Char)
  | [] => some []
  | '\\' :: rest =>
    match rest with
    | [] => none
    | e :: rest2 =>
      let c? : Option Char :=
        if e = '"' then some '"'
        else if e = '\\' then some '\\'
        else if e = '/' then some '/'
        else if e = 'n' then some '\n'
        else if e = 't' then some '\t'
        else if e = 'r' then some '\r'
        else if e = 'b' then some (Char.ofNat 8)
        else if e = 'f' then some (Char.ofNat 12)
        else none
      match c? with
      | some c => (unescapeJson rest2).map (fun l => c :: l)
      | none => none
  | '"' :: _ => none
  | c :: rest => (unescapeJson rest).map (fun l => c :: l)

/-- Value of a decimal digit character, none for any other character. -/
def digitVal (c : Char) : Option Nat :=
  if 48 ≤ c.toNat ∧ c.toNat ≤ 57 then some (c.toNat - 48) else none

/-- Decimal reading of a digit token, none on any non-digit. -/
def natTokenGo : List Char → Nat → Option Nat
  | [], acc => some acc
  | c :: rest, acc =>
    match digitVal c with
    | some d => natTokenGo rest (acc * 10 + d)
    | none => none

/-- An integer literal token: an optional leading minus then one or more
decimal digits. -/
def intToken : List Char → Option Int
  | [] => none
  | '-' :: rest =>
    match rest with
    | [] => none
    | _ :: _ => (natTokenGo rest 0).map (fun n => -(n : Int))
  | cs => (natTokenGo cs 0).map (fun n => (n : Int))

/-- Boundary model of JSON.parse restricted to the single-token inputs the
source feeds it: a JSON string literal, an integer literal, true, false or
null.  none models a thrown SyntaxError. -/
def jsonParseSimple (s : String) : Option JsVal :=
  match s.data with
  | '"' :: rest =>
    match rest.getLast? with
    | some '"' =>
      match rest with
      | [] => none
      | _ :: _ => (unescapeJson rest.dropLast).map (fun l => .vstr (String.mk l))
    | _ => none
  | _ =>
    if s = "true" then some (.vbool true)
    else if s = "false" then some (.vbool false)
    else if s = "null" then some .vnull
    else (intToken s.data).map .vint

/-- Printing of a parsed JSON scalar by JS template interpolation. -/
def jsValToString : JsVal → String
  | .vstr s => s
  | .vint n => toString n
  | .vbool b => if b then "true" else "false"
  | .vnull => "null"

/-- Decidable equality of Except results, for evaluating witnesses. -/
instance {e a : Type} [DecidableEq e] [DecidableEq a] : DecidableEq (Except e a) := fun x y =>
  match x, y with
  | .ok u, .ok w => if h : u = w then .isTrue (by rw [h]) else .isFalse (by intro hc; cases hc; exact h rfl)
  | .error u, .error w => if h : u = w then .isTrue (by rw [h]) else .isFalse (by intro hc; cases hc; exact h rfl)
  | .ok _, .error _ => .isFalse (by intro hc; cases hc)
  | .error _, .ok _ => .isFalse (by intro hc; cases hc)

/- ----------------------------------------------------------------------
   Data model definition (the dataModelDefinition argument of the source).
   ---------------------------------------------------------------------- -/

/-- One association rule of the data model definition.  sourceKey and keysIn
may be absent in the JSON document, hence Option. -/
structure Association where
  sourceKey : Option String
  keysIn : Option String
  targetKey : String
deriving DecidableEq

/-- The parts of dataModelDefinition read by the source: model name, primary
key name (dataModelDefinition.id.name), the attribute type map, and the
association map, both in insertion order. -/
structure DataModelDefinition where
  model : String
  idName : String
  attributes : List (String × String)
  associations : List (String × Association)
deriving DecidableEq

/-- A record as delivered by the CSV parser or the in-memory array: field
name to raw textual value, in Object.entries order. -/
abbrev Record := List (String × String)

/-- modelName.slice(0, 1).toUpperCase() + modelName.slice(1). -/
def upperFirst (s : String) : String :=
  match s.data with
  | [] => ""
  | c :: rest => String.mk (c.toUpper :: rest)

/-- The addAssociations map built by generateQueries (src/index.js lines
146-156): for every association, when sourceKey is truthy the entry keyed by
add plus the capitalized association name maps to the declared type of the
source key attribute; otherwise, when keysIn equals the model name, it maps
to the declared type of the target key attribute.  A missing attribute gives
an entry whose value is undefined, modelled as none. -/
def addAssociations (dmd : DataModelDefinition) : List (String × Option String) :=
  dmd.associations.foldl
    (fun acc p =>
      let addName := "add" ++ upperFirst p.1
      match p.2.sourceKey with
      | some sk =>
        if sk = "" then
          if p.2.keysIn = some dmd.model then
            jsSet acc addName (jsLookup dmd.attributes p.2.targetKey)
          else acc
        else jsSet acc addName (jsLookup dmd.attributes sk)
      | none =>
        if p.2.keysIn = some dmd.model then
          jsSet acc addName (jsLookup dmd.attributes p.2.targetKey)
        else acc)
    []

/-- The type lookup of src/index.js line 160:
attributes[key] ?? addAssociations[key]. -/
def typeOf (dmd : DataModelDefinition) (k : String) : Option String :=
  match jsLookup dmd.attributes k with
  | some t => some t
  | none =>
    match jsLookup (addAssociations dmd) k with
    | some t? => t?
    | none => none

/-- The error message of src/index.js line 164. -/
def unknownFieldMsg (k : String) : String :=
  "No such field in the model:" ++ k ++ ". Please check the header in the file!"

/-- The scalar types serialized without quotes (src/index.js line 140). -/
def nonStringTypes : List String := ["Int", "Float", "Boolean"]

/-- value[0] == double-quote and value[value.length - 1] == double-quote. -/
def isQuoted (v : String) : Bool :=
  v.data.head? = some '"' && v.data.getLast? = some '"'

/-- The array split of the list branch (src/index.js lines 168-172): when
the value is quote-wrapped, JSON-parse it (a non-string result or a parse
failure throws) and split the content on the array delimiter, otherwise
split the raw value. -/
def quotedSplit (AD v : String) : Except String (List String) :=
  if isQuoted v then
    match jsonParseSimple v with
    | some (.vstr s) => .ok (jsSplit s AD)
    | some _ => .error "TypeError: JSON.parse(value).split is not a function"
    | none => .error "SyntaxError: Unexpected token in JSON"
  else .ok (jsSplit v AD)

/-- Serialization of one field argument once its declared type t is resolved
(src/index.js lines 166-187).  The returned text is the exact text appended
to the query, including the trailing comma; ok with the empty string models
the continue of the null-elision branch; error models a thrown exception. -/
def fieldPieceTy (t : String) (AD k v : String) : Except String String :=
  if t = "" then .error (unknownFieldMsg k)
  else if v = "NULL" ∨ v = "\"NULL\"" ∨ v = "" then .ok ""
  else if t.data.head? = some '[' then
    match quotedSplit AD v with
    | .error e => .error e
    | .ok array =>
      if nonStringTypes.contains (String.mk (t.data.drop 1).dropLast) then
        .ok (k ++ ":[" ++ strIntercal "," array ++ "]" ++ ",")
      else
        .ok (k ++ ":[" ++ strIntercal "," (array.map jsonStringify) ++ "]" ++ ",")
  else
    if nonStringTypes.contains t then
      if isQuoted v then
        match jsonParseSimple v with
        | some jv => .ok (k ++ ":" ++ jsValToString jv ++ ",")
        | none => .error "SyntaxError: Unexpected token in JSON"
      else .ok (k ++ ":" ++ v ++ ",")
    else
      if isQuoted v then .ok (k ++ ":" ++ v ++ ",")
      else .ok (k ++ ":" ++ jsonStringify v ++ ",")

/-- One iteration of the field loop of generateQueries: resolve the declared
type, then serialize.  An unresolvable (or empty, hence falsy) type throws
the unknown-field error. -/
def fieldPiece (dmd : DataModelDefinition) (AD k v : String) : Except String String :=
  match typeOf dmd k with
  | none => .error (unknownFieldMsg k)
  | some t => fieldPieceTy t AD k v

/-- The argument text accumulated by the inner field loop for one record:
the concatenation of the per-field pieces, each carrying its trailing comma,
elided fields contributing nothing.  The first thrown error aborts, exactly
as in the source where the exception escapes generateQueries. -/
def argsText (dmd : DataModelDefinition) (AD : String) : Record → Except String String
  | [] => .ok ""
  | (k, v) :: rest =>
    match fieldPiece dmd AD k v with
    | .error e => .error e
    | .ok piece =>
      match argsText dmd AD rest with
      | .error e => .error e
      | .ok t => .ok (piece ++ t)

/-- The operation name: addModel for mutations, validateModelForCreation for
validations, with the first character of the model name upper-cased. -/
def apiName (dmd : DataModelDefinition) (isMut : Bool) : String :=
  if isMut then "add" ++ upperFirst dmd.model
  else "validate" ++ upperFirst dmd.model ++ "ForCreation"

/-- The mode keyword line that opens the document. -/
def gqKeyword (isMut : Bool) : String :=
  if isMut then "mutation\x7b\n" else "\x7b\n"

/-- The text closing one record block: in mutation mode a selection of the
primary key then a newline, in validation mode just the closing parenthesis
and a newline. -/
def gqCloser (dmd : DataModelDefinition) (isMut : Bool) : String :=
  if isMut then ")\x7b" ++ dmd.idName ++ "\x7d\n" else ")\n"

/-- One record block (src/index.js lines 157-193).  The source slices the
last character off the whole accumulated query; since the alias prefix of the
current block is nonempty, that character always belongs to the current
block, so the slice is taken locally here. -/
def blockText (dmd : DataModelDefinition) (isMut : Bool) (AD : String) (idx : Nat) (r : Record) : Except String String :=
  match argsText dmd AD r with
  | .error e => .error e
  | .ok args =>
    .ok (jsSlice0m1 ("n" ++ toString (idx + 1) ++ ": " ++ apiName dmd isMut ++ "(" ++ args)
      ++ gqCloser dmd isMut)

/-- The record loop of generateQueries: concatenate the blocks of the batch
in order, idx being the zero-based local index of the next record. -/
def buildBlocks (dmd : DataModelDefinition) (isMut : Bool) (AD : String) : List Record → Nat → Except String String
  | [], _ => .ok ""
  | r :: rest, idx =>
    match blockText dmd isMut AD idx r with
    | .error e => .error e
    | .ok b =>
      match buildBlocks dmd isMut AD rest (idx + 1) with
      | .error e => .error e
      | .ok t => .ok (b ++ t)

/-- generateQueries (src/index.js lines 130-197): compile one batch of
records into a single composite document, or throw. -/
def generateQueries (records : List Record) (dmd : DataModelDefinition) (isMutation : Bool) (arrayDelimiter : String) : Except String String :=
  match buildBlocks dmd isMutation arrayDelimiter records 0 with
  | .error e => .error e
  | .ok blocks => .ok (gqKeyword isMutation ++ blocks ++ "\x7d")

/- ----------------------------------------------------------------------
   responseParser (src/index.js lines 207-266).
   ---------------------------------------------------------------------- -/

/-- One error object of a graph API response, with the parts the source
reads: an optional input payload, the optional extensions.input payload, and
the line numbers of the locations list.  The message distinguishes error
objects. -/
structure GqlError where
  message : String
  input : Option JsObj
  extInput : Option JsObj
  locations : List Int
deriving DecidableEq

/-- err_obj.input ?? err_obj.extensions.input. -/
def errInput (e : GqlError) : Option JsObj :=
  match e.input with
  | some o => some o
  | none => e.extInput

/-- A graph API response: the optional data map from alias to value, and the
optional errors list.  none models an absent or null property (falsy in the
truthiness tests of the source); a present empty list is truthy. -/
structure GqlResponse where
  data : Option (List (String × JsVal))
  errors : Option (List GqlError)
deriving DecidableEq

/-- One entry of the parsed failure report: the optional originating
sub-query text and the matched error. -/
structure ParsedEntry where
  subquery : Option String
  errors : GqlError
deriving DecidableEq

/-- Placeholder error used with getD where the source indexes the errors
array at an index that is in range by construction. -/
def defaultGqlError : GqlError := ⟨"", none, none, []⟩

/-- fast-deep-equal on the flat objects this code compares: same key count
and every binding of the first found with an equal value in the second. -/
def deepEqualObj (a b : JsObj) : Bool :=
  a.length = b.length && a.all (fun p => decide (jsLookup b p.1 = some p.2))

/-- equal(input, new_val) where input may be undefined. -/
def inputMatches (inp : Option JsObj) (m : JsObj) : Bool :=
  match inp with
  | some o => deepEqualObj o m
  | none => false

/-- The inner matching loop of the data branch (src/index.js lines 237-241):
every matching error index overwrites the mapping, so the final value is the
index of the last error whose input deep-equals the reconstructed mapping. -/
def matchErrorGo (m : JsObj) : List (Option JsObj) → Nat → Option Nat → Option Nat
  | [], _, acc => acc
  | inp :: rest, i, acc =>
    matchErrorGo m rest (i + 1) (if inputMatches inp m then some i else acc)

/-- Index of the error paired with a reconstructed mapping. -/
def matchError (inputs : List (Option JsObj)) (m : JsObj) : Option Nat :=
  matchErrorGo m inputs 0 none

/-- Reconstruction of the argument key to value mapping of one alias from
the document text (src/index.js lines 231-236): take the text after the
first opening parenthesis, cut it at the first closing parenthesis, split
the result on commas, and parse each key:value token, later bindings
overwriting earlier ones.  Errors model the exceptions the corresponding JS
expressions throw (indexing past the split result, JSON.parse failing). -/
def reconstructArgs (rest : String) : Except String JsObj :=
  match (jsSplit rest "(").get? 1 with
  | none => .error "TypeError: cannot read properties of undefined"
  | some afterParen =>
    let inner := (jsSplit afterParen ")").headD ""
    let values := jsSplit inner ","
    values.foldlM
      (fun acc value =>
        let parts := jsSplit value ":"
        let key := parts.headD ""
        match parts.get? 1 with
        | none => .error "SyntaxError: undefined is not valid JSON"
        | some val =>
          match jsonParseSimple val with
          | some jv => Except.ok (jsSet acc key jv)
          | none => .error "SyntaxError: Unexpected token in JSON")
      []

/-- The subquery scan of the data branch (src/index.js lines 228-243):
for each record block in order, when its alias is mapped to the boolean
false in response.data, reconstruct its arguments and record the pairing
with the matching error index, if any.  Each subquery index is visited once
and indices grow, so the resulting pairs are already in the ascending order
the source later establishes by sorting the map keys numerically. -/
def buildMapQueriesGo (data : List (String × JsVal)) (inputs : List (Option JsObj)) : List String → Nat → List (Nat × Nat) → Except String (List (Nat × Nat))
  | [], _, acc => .ok acc
  | q :: rest, qi, acc =>
    let split_res := jsSplit q ": "
    if jsLookup data (split_res.headD "") = some (.vbool false) then
      match split_res.get? 1 with
      | none => .error "TypeError: cannot read properties of undefined"
      | some rest1 =>
        match reconstructArgs rest1 with
        | .error e => .error e
        | .ok m =>
          match matchError inputs m with
          | some ei => buildMapQueriesGo data inputs rest (qi + 1) (acc ++ [(qi, ei)])
          | none => buildMapQueriesGo data inputs rest (qi + 1) acc
    else buildMapQueriesGo data inputs rest (qi + 1) acc

/-- The data branch of responseParser (src/index.js lines 223-252): entries
keyed by record plus the global ordinal, carrying no sub-query text and the
matched error object. -/
def dataBranch (subqueries : List String) (data : List (String × JsVal)) (errors : List GqlError) (batch_size batch_num : Nat) : Except String (List (String × ParsedEntry)) :=
  match buildMapQueriesGo data (errors.map errInput) subqueries 0 [] with
  | .error e => .error e
  | .ok pairs =>
    .ok (pairs.map (fun p =>
      ("record" ++ toString (batch_size * batch_num + p.1 + 1),
        ⟨none, errors.getD p.2 defaultGqlError⟩)))

/-- The line-number branch of responseParser (src/index.js lines 253-262):
for each error take locations[0].line, subtract one, use it as index and key
offset, and attach the sub-query sliced from the document by line. -/
def lineBranchGo (subqueries : List String) (batch_size batch_num : Nat) : List GqlError → List (String × ParsedEntry) → Except String (List (String × ParsedEntry))
  | [], acc => .ok acc
  | err :: rest, acc =>
    match err.locations.head? with
    | none => .error "TypeError: cannot read properties of undefined"
    | some line =>
      let index : Int := line - 1
      lineBranchGo subqueries batch_size batch_num rest
        (jsSet acc ("record" ++ toString ((batch_size : Int) * (batch_num : Int) + index))
          ⟨jsIndex subqueries (index - 1), err⟩)

/-- responseParser (src/index.js lines 207-266), taking the already-obtained
response value (the executor call and its try/catch recovery of err.response
are the external boundary).  Absent errors give an empty report; otherwise
the record blocks are the document lines without the first (mode keyword)
and last (closing brace) line, and the branch is chosen by the presence of
response.data. -/
def responseParser (queries : String) (response : GqlResponse) (batch_size batch_num : Nat) : Except String (List (String × ParsedEntry)) :=
  match response.errors with
  | none => .ok []
  | some errors =>
    let subqueries := ((jsSplit queries "\n").drop 1).dropLast
    match response.data with
    | some data => dataBranch subqueries data errors batch_size batch_num
    | none => lineBranchGo subqueries batch_size batch_num errors []

/- ----------------------------------------------------------------------
   jsonProcessing (src/index.js lines 89-120) and csvProcessing (lines
   12-79), instrumented to return the trace of documents passed to the
   executor together with the outcome.
   ---------------------------------------------------------------------- -/

/-- Why a run stopped. -/
inductive RunError where
  | compileError (msg : String)
  | parserError (msg : String)
  | batchFailed (report : List (String × ParsedEntry))
deriving DecidableEq

/-- The batch loop of jsonProcessing.  records_num and batch_num are the
loop variables of the source; the fuel argument only forces termination and
never runs out when it starts at records.length and the batch size is at
least one (each round then subtracts at least one from records_num).  For
batch size zero the source loops forever; the claims all assume a positive
batch size. -/
def jsonProcessingGo (dmd : DataModelDefinition) (isMut : Bool) (AD : String) (B : Nat) (exec : String → GqlResponse) (records : List Record) : Nat → Nat → Nat → List String × Option RunError
  | 0, _, _ => ([], none)
  | fuel + 1, records_num, batch_num =>
    if records_num = 0 then ([], none)
    else
      match generateQueries ((records.drop (batch_num * B)).take B) dmd isMut AD with
      | .error e => ([], some (.compileError e))
      | .ok queries =>
        match responseParser queries (exec queries) B batch_num with
        | .error e => ([queries], some (.parserError e))
        | .ok report =>
          if report.length > 0 then ([queries], some (.batchFailed report))
          else
            let r := jsonProcessingGo dmd isMut AD B exec records fuel (records_num - B) (batch_num + 1)
            (queries :: r.1, r.2)

/-- jsonProcessing: process an in-memory record list batch by batch,
aborting the run on the first non-empty failure report or thrown error.
Returns the documents passed to the executor, in order, and the outcome
(none for a clean run). -/
def jsonProcessing (records : List Record) (dmd : DataModelDefinition) (isValidation : Bool) (AD : String) (B : Nat) (exec : String → GqlResponse) : List String × Option RunError :=
  jsonProcessingGo dmd (if isValidation then false else true) AD B exec records
    records.length records.length 0

/-- Outcome of a csvProcessing run as observed by its caller: the promise
resolves, rejects with the report of the first failing batch, or never
settles because an exception escaped the streaming callback and the parser
was left paused (the source neither resumes it nor settles the promise in
that case). -/
inductive CsvSettle where
  | resolved
  | rejectedReport (report : List (String × ParsedEntry))
  | hung (msg : String)
deriving DecidableEq

/-- The streaming loop of csvProcessing.  Each delivered row is pushed onto
the buffer; when the buffer length is a multiple of the batch size the batch
is compiled and executed and, if its report is non-empty, the promise is
rejected — but the source then clears the buffer, increments the batch
ordinal and resumes the parser, so processing continues; only the first
settlement is observable.  On completion a non-empty leftover buffer is
processed the same way, then the promise is resolved (a no-op if already
settled). -/
def csvGo (dmd : DataModelDefinition) (isMut : Bool) (AD : String) (B : Nat) (exec : String → GqlResponse) : List Record → List Record → Nat → List String → Option (List (String × ParsedEntry)) → List String × CsvSettle
  | [], buffer, batch_num, executed, settled =>
    match buffer with
    | [] =>
      match settled with
      | some r => (executed, .rejectedReport r)
      | none => (executed, .resolved)
    | _ :: _ =>
      match generateQueries buffer dmd isMut AD with
      | .error e =>
        match settled with
        | some r => (executed, .rejectedReport r)
        | none => (executed, .hung e)
      | .ok doc =>
        match responseParser doc (exec doc) B batch_num with
        | .error e =>
          match settled with
          | some r => (executed ++ [doc], .rejectedReport r)
          | none => (executed ++ [doc], .hung e)
        | .ok report =>
          match settled with
          | some r => (executed ++ [doc], .rejectedReport r)
          | none =>
            if report.length > 0 then (executed ++ [doc], .rejectedReport report)
            else (executed ++ [doc], .resolved)
  | row :: rows, buffer, batch_num, executed, settled =>
    let buffer1 := buffer ++ [row]
    if buffer1.length % B = 0 then
      match generateQueries buffer1 dmd isMut AD with
      | .error e =>
        match settled with
        | some r => (executed, .rejectedReport r)
        | none => (executed, .hung e)
      | .ok doc =>
        match responseParser doc (exec doc) B batch_num with
        | .error e =>
          match settled with
          | some r => (executed ++ [doc], .rejectedReport r)
          | none => (executed ++ [doc], .hung e)
        | .ok report =>
          let settled1 :=
            match settled with
            | some r => some r
            | none => if report.length > 0 then some report else none
          csvGo dmd isMut AD B exec rows [] (batch_num + 1) (executed ++ [doc]) settled1
    else csvGo dmd isMut AD B exec rows buffer1 batch_num executed settled

/-- csvProcessing: process a streaming record source row by row.  Returns
the documents passed to the executor, in order, and the settlement of the
returned promise. -/
def csvProcessing (rows : List Record) (dmd : DataModelDefinition) (isValidation : Bool) (AD : String) (B : Nat) (exec : String → GqlResponse) : List String × CsvSettle :=
  csvGo dmd (if isValidation then false else true) AD B exec rows [] 0 [] none

/- ----------------------------------------------------------------------
   bulkDownload row serialization (src/index.js lines 353-375).
   ---------------------------------------------------------------------- -/

/-- An attribute value of an exported record as the row loop distinguishes
them: null, undefined, a scalar (already in its string coercion), or a list
of element strings. -/
inductive AttrVal where
  | vnull
  | vundef
  | vstr (s : String)
  | varr (l : List String)
deriving DecidableEq

/-- The attribute loop of the row serialization: append one double-quoted
token plus the field delimiter per requested attribute; null, undefined,
an absent property and an empty list give the quoted NULL sentinel, a
non-empty list is joined with the array delimiter inside one quoted token. -/
def bulkRowFold (attributes : List String) (record : List (String × AttrVal)) (FD AD : String) : String :=
  attributes.foldl
    (fun row attr =>
      match jsLookup record attr with
      | none => row ++ "\"NULL\"" ++ FD
      | some .vnull => row ++ "\"NULL\"" ++ FD
      | some .vundef => row ++ "\"NULL\"" ++ FD
      | some (.varr []) => row ++ "\"NULL\"" ++ FD
      | some (.varr (x :: xs)) => row ++ "\"" ++ strIntercal AD (x :: xs) ++ "\"" ++ FD
      | some (.vstr s) => row ++ "\"" ++ s ++ "\"" ++ FD)
    ""

/-- The line written to the sink for one record: the serialized row with its
last character sliced off, then the record delimiter. -/
def bulkDownloadRow (attributes : List String) (record : List (String × AttrVal)) (FD AD RD : String) : String :=
  jsSlice0m1 (bulkRowFold attributes record FD AD) ++ RD

/-- The quoted token the specification describes for one attribute value. -/
def bulkToken (AD : String) (v : Option AttrVal) : String :=
  match v with
  | none => "\"NULL\""
  | some .vnull => "\"NULL\""
  | some .vundef => "\"NULL\""
  | some (.varr []) => "\"NULL\""
  | some (.varr (x :: xs)) => "\"" ++ strIntercal AD (x :: xs) ++ "\""
  | some (.vstr s) => "\"" ++ s ++ "\""

/- ----------------------------------------------------------------------
   String toolkit lemmas.
   ---------------------------------------------------------------------- -/

theorem strData_append (a b : String) : (a ++ b).data = a.data ++ b.data := by
  cases a; cases b; rfl

theorem strEq_of_data {a b : String} (h : a.data = b.data) : a = b := by
  cases a; cases b; exact congrArg String.mk h

theorem strData_ne_nil {t : String} (h : t ≠ "") : t.data ≠ [] := by
  intro hd
  exact h (strEq_of_data hd)

theorem strAppend_empty (s : String) : s ++ "" = s := by
  apply strEq_of_data
  rw [strData_append]
  exact List.append_nil _

theorem strEmpty_append (s : String) : "" ++ s = s := by
  apply strEq_of_data
  rw [strData_append]
  rfl

theorem strAppend_assoc (a b c : String) : a ++ b ++ c = a ++ (b ++ c) := by
  apply strEq_of_data
  simp [strData_append]

theorem jsSlice_append_single (s t : String) (h : t.data.length = 1) :
    jsSlice0m1 (s ++ t) = s := by
  obtain ⟨c, hc⟩ := List.length_eq_one.mp h
  apply strEq_of_data
  show (s ++ t).data.dropLast = s.data
  rw [strData_append, hc, List.dropLast_concat]

theorem jsSlice_append_left (s t : String) (h : t ≠ "") :
    jsSlice0m1 (s ++ t) = s ++ jsSlice0m1 t := by
  apply strEq_of_data
  show (s ++ t).data.dropLast = (s ++ jsSlice0m1 t).data
  rw [strData_append, strData_append, List.dropLast_append_of_ne_nil _ (strData_ne_nil h)]
  rfl

/- ----------------------------------------------------------------------
   Helper lemmas about the compiler.
   ---------------------------------------------------------------------- -/

theorem fieldPiece_sentinel (dmd : DataModelDefinition) (AD k v t : String)
    (hv : v = "NULL" ∨ v = "\"NULL\"" ∨ v = "") (ht : typeOf dmd k = some t) (ht0 : t ≠ "") :
    fieldPiece dmd AD k v = .ok "" := by
  simp only [fieldPiece, ht, fieldPieceTy, if_neg ht0, if_pos hv]

theorem argsText_elide (dmd : DataModelDefinition) (AD k v t : String)
    (hv : v = "NULL" ∨ v = "\"NULL\"" ∨ v = "") (ht : typeOf dmd k = some t) (ht0 : t ≠ "") :
    ∀ fpre fpost : Record,
      argsText dmd AD (fpre ++ (k, v) :: fpost) = argsText dmd AD (fpre ++ fpost) := by
  intro fpre
  induction fpre with
  | nil =>
    intro fpost
    simp only [List.nil_append, argsText, fieldPiece_sentinel dmd AD k v t hv ht ht0]
    cases h : argsText dmd AD fpost with
    | error e => rfl
    | ok s => simp [strEmpty_append]
  | cons p rest ih =>
    intro fpost
    simp only [List.cons_append, argsText, List.append_eq, ih]

theorem buildBlocks_congr (dmd : DataModelDefinition) (isMut : Bool) (AD : String)
    (r1 r2 : Record) (h : argsText dmd AD r1 = argsText dmd AD r2) :
    ∀ pre post idx,
      buildBlocks dmd isMut AD (pre ++ r1 :: post) idx
        = buildBlocks dmd isMut AD (pre ++ r2 :: post) idx := by
  intro pre
  induction pre with
  | nil =>
    intro post idx
    simp only [List.nil_append, buildBlocks, blockText, h]
  | cons r rest ih =>
    intro post idx
    simp only [List.cons_append, buildBlocks, List.append_eq, ih]

/-- Claim C6: a record field whose raw value is the null sentinel (the
literal text NULL, the quoted text "NULL", or the empty string) is omitted
entirely by generateQueries, in either mode: the compiled result is the same
as for the record with that field removed, so the field name never appears
as an argument in the compiled document.  The field must resolve to a
declared type, since the source checks the type before the sentinel and
would otherwise throw. -/
theorem c6_null_elision (dmd : DataModelDefinition) (isMut : Bool) (AD k v t : String)
    (hv : v = "NULL" ∨ v = "\"NULL\"" ∨ v = "") (ht : typeOf dmd k = some t) (ht0 : t ≠ "")
    (pre post : List Record) (fpre fpost : Record) :
    generateQueries (pre ++ (fpre ++ (k, v) :: fpost) :: post) dmd isMut AD
      = generateQueries (pre ++ (fpre ++ fpost) :: post) dmd isMut AD := by
  rw [generateQueries, generateQueries,
    buildBlocks_congr dmd isMut AD _ _ (argsText_elide dmd AD k v t hv ht ht0 fpre fpost)]

/-- Witness for C6 at a concrete input: a NULL-valued field of a known
attribute disappears from the compiled document. -/
theorem c6_null_elision_witness :
    generateQueries [[("a", "NULL"), ("b", "2")]]
        ⟨"foo", "id", [("a", "Int"), ("b", "Int")], []⟩ false ","
      = generateQueries [[("b", "2")]]
        ⟨"foo", "id", [("a", "Int"), ("b", "Int")], []⟩ false "," :=
  c6_null_elision ⟨"foo", "id", [("a", "Int"), ("b", "Int")], []⟩ false "," "a" "NULL" "Int"
    (Or.inl rfl) (by decide) (by decide) [] [] [] [("b", "2")]

theorem fieldPieceTy_shape (t AD k v s : String) (h : fieldPieceTy t AD k v = Except.ok s) :
    s = "" ∨ ∃ body, s = body ++ "," := by
  rw [fieldPieceTy] at h
  split at h
  · cases h
  · split at h
    · cases h
      exact Or.inl rfl
    · split at h
      · split at h
        · cases h
        · split at h
          · cases h
            exact Or.inr ⟨_, rfl⟩
          · cases h
            exact Or.inr ⟨_, rfl⟩
      · split at h
        · split at h
          · split at h
            · cases h
              exact Or.inr ⟨_, rfl⟩
            · cases h
          · cases h
            exact Or.inr ⟨_, rfl⟩
        · split at h
          · cases h
            exact Or.inr ⟨_, rfl⟩
          · cases h
            exact Or.inr ⟨_, rfl⟩

theorem fieldPiece_shape (dmd : DataModelDefinition) (AD k v s : String)
    (h : fieldPiece dmd AD k v = Except.ok s) : s = "" ∨ ∃ body, s = body ++ "," := by
  rw [fieldPiece] at h
  split at h
  · cases h
  · exact fieldPieceTy_shape _ AD k v s h

theorem argsText_shape (dmd : DataModelDefinition) (AD : String) :
    ∀ (r : Record) (s : String), argsText dmd AD r = Except.ok s →
      s = "" ∨ ∃ body, s = body ++ "," := by
  intro r
  induction r with
  | nil =>
    intro s h
    cases h
    exact Or.inl rfl
  | cons p rest ih =>
    obtain ⟨k, v⟩ := p
    intro s h
    rw [argsText] at h
    split at h
    · cases h
    · rename_i piece hp
      split at h
      · cases h
      · rename_i t2 ht2
        cases h
        rcases ih t2 ht2 with rfl | ⟨body, rfl⟩
        · rcases fieldPiece_shape dmd AD k v piece hp with rfl | ⟨b2, rfl⟩
          · exact Or.inl (strAppend_empty "")
          · exact Or.inr ⟨b2, strAppend_empty _⟩
        · exact Or.inr ⟨piece ++ body, (strAppend_assoc piece body ",").symm⟩

theorem argsText_all_sentinel (dmd : DataModelDefinition) (AD : String) :
    ∀ r : Record,
      (∀ p ∈ r, (p.2 = "NULL" ∨ p.2 = "\"NULL\"" ∨ p.2 = "") ∧
        ∃ t, typeOf dmd p.1 = some t ∧ t ≠ "") →
      argsText dmd AD r = Except.ok "" := by
  intro r
  induction r with
  | nil => intro _; rfl
  | cons p rest ih =>
    intro hall
    obtain ⟨k, v⟩ := p
    obtain ⟨hv, t, ht, ht0⟩ := hall (k, v) (List.mem_cons_self (k, v) rest)
    rw [argsText, fieldPiece_sentinel dmd AD k v t hv ht ht0,
      ih (fun q hq => hall q (List.mem_cons_of_mem (k, v) hq))]
    exact congrArg Except.ok (strEmpty_append "")

theorem blockText_of_args_comma (dmd : DataModelDefinition) (isMut : Bool) (AD : String)
    (idx : Nat) (r : Record) (body : String)
    (h : argsText dmd AD r = Except.ok (body ++ ",")) :
    blockText dmd isMut AD idx r
      = Except.ok ("n" ++ toString (idx + 1) ++ ": " ++ apiName dmd isMut ++ "(" ++ body
          ++ gqCloser dmd isMut) := by
  rw [blockText, h]
  show Except.ok (jsSlice0m1 ("n" ++ toString (idx + 1) ++ ": " ++ apiName dmd isMut ++ "("
      ++ (body ++ ",")) ++ gqCloser dmd isMut) = _
  rw [show "n" ++ toString (idx + 1) ++ ": " ++ apiName dmd isMut ++ "(" ++ (body ++ ",")
      = ("n" ++ toString (idx + 1) ++ ": " ++ apiName dmd isMut ++ "(" ++ body) ++ ","
    from (strAppend_assoc _ body ",").symm]
  rw [jsSlice_append_single _ "," (by decide)]

theorem blockText_of_args_empty (dmd : DataModelDefinition) (isMut : Bool) (AD : String)
    (idx : Nat) (r : Record)
    (h : argsText dmd AD r = Except.ok "") :
    blockText dmd isMut AD idx r
      = Except.ok ("n" ++ toString (idx + 1) ++ ": " ++ apiName dmd isMut
          ++ gqCloser dmd isMut) := by
  rw [blockText, h]
  show Except.ok (jsSlice0m1 ("n" ++ toString (idx + 1) ++ ": " ++ apiName dmd isMut ++ "("
      ++ ("" : String)) ++ gqCloser dmd isMut) = _
  rw [strAppend_empty, jsSlice_append_single _ "(" (by decide)]

/-- Claim C10: the compiler always deletes the character right before a
record block closer.  When the argument text is non-empty it is the trailing
comma of the argument list; when every field of the record is elided (all
values are the null sentinel, all types resolvable) it is the opening
parenthesis, so the block degenerates to alias, operation name and closer
with no parenthesized argument list. -/
theorem c10_trailing_char_removal (dmd : DataModelDefinition) (isMut : Bool) (AD : String)
    (idx : Nat) (r : Record) :
    (∀ args, argsText dmd AD r = Except.ok args → args ≠ "" →
       ∃ body, args = body ++ "," ∧
         blockText dmd isMut AD idx r
           = Except.ok ("n" ++ toString (idx + 1) ++ ": " ++ apiName dmd isMut ++ "(" ++ body
               ++ gqCloser dmd isMut))
    ∧ ((∀ p ∈ r, (p.2 = "NULL" ∨ p.2 = "\"NULL\"" ∨ p.2 = "") ∧
          ∃ t, typeOf dmd p.1 = some t ∧ t ≠ "") →
       blockText dmd isMut AD idx r
         = Except.ok ("n" ++ toString (idx + 1) ++ ": " ++ apiName dmd isMut
             ++ gqCloser dmd isMut)) := by
  constructor
  · intro args h hne
    rcases argsText_shape dmd AD r args h with h0 | ⟨body, hb⟩
    · exact absurd h0 hne
    · exact ⟨body, hb, blockText_of_args_comma dmd isMut AD idx r body (hb ▸ h)⟩
  · intro hall
    exact blockText_of_args_empty dmd isMut AD idx r (argsText_all_sentinel dmd AD r hall)

/-- Witness for C10 at concrete inputs: one record with one surviving
argument loses its trailing comma, one all-elided record loses its opening
parenthesis. -/
theorem c10_trailing_char_removal_witness :
    (∃ body, ("a:1," : String) = body ++ "," ∧
       blockText ⟨"bar", "bid", [("a", "Int")], []⟩ true "," 0 [("a", "1")]
         = Except.ok ("n" ++ toString (0 + 1) ++ ": "
             ++ apiName ⟨"bar", "bid", [("a", "Int")], []⟩ true ++ "(" ++ body
             ++ gqCloser ⟨"bar", "bid", [("a", "Int")], []⟩ true))
    ∧ blockText ⟨"bar", "bid", [("a", "Int")], []⟩ true "," 0 [("a", "NULL")]
        = Except.ok ("n" ++ toString (0 + 1) ++ ": "
            ++ apiName ⟨"bar", "bid", [("a", "Int")], []⟩ true
            ++ gqCloser ⟨"bar", "bid", [("a", "Int")], []⟩ true) := by
  constructor
  · exact (c10_trailing_char_removal ⟨"bar", "bid", [("a", "Int")], []⟩ true "," 0
      [("a", "1")]).1 "a:1," (by decide) (by decide)
  · refine (c10_trailing_char_removal ⟨"bar", "bid", [("a", "Int")], []⟩ true "," 0
      [("a", "NULL")]).2 ?_
    intro p hp
    rw [List.mem_singleton] at hp
    subst hp
    exact ⟨Or.inl rfl, "Int", by decide, by decide⟩

theorem buildBlocks_shape (dmd : DataModelDefinition) (isMut : Bool) (AD : String) :
    ∀ (records : List Record) (idx : Nat),
      (∀ r ∈ records, ∃ args, argsText dmd AD r = Except.ok args ∧ args ≠ "") →
      ∃ blocks : List String,
        blocks.length = records.length ∧
        buildBlocks dmd isMut AD records idx = Except.ok (strJoin blocks) ∧
        ∀ i, i < records.length → ∃ body,
          argsText dmd AD (records.getD i []) = Except.ok (body ++ ",") ∧
          blocks.getD i "" = "n" ++ toString (idx + i + 1) ++ ": " ++ apiName dmd isMut
            ++ "(" ++ body ++ gqCloser dmd isMut := by
  intro records
  induction records with
  | nil =>
    intro idx _
    exact ⟨[], rfl, rfl, fun i hi => absurd hi (Nat.not_lt_zero i)⟩
  | cons r rest ih =>
    intro idx hb
    obtain ⟨args, hargs, hne⟩ := hb r (List.mem_cons_self r rest)
    rcases argsText_shape dmd AD r args hargs with h0 | ⟨body, rfl⟩
    · exact absurd h0 hne
    · obtain ⟨blocks, hlen, hbuild, hget⟩ :=
        ih (idx + 1) (fun q hq => hb q (List.mem_cons_of_mem r hq))
      refine ⟨("n" ++ toString (idx + 1) ++ ": " ++ apiName dmd isMut ++ "(" ++ body
        ++ gqCloser dmd isMut) :: blocks, by simp [hlen], ?_, ?_⟩
      · rw [buildBlocks, blockText_of_args_comma dmd isMut AD idx r body hargs, hbuild]
        rfl
      · intro i hi
        match i with
        | 0 =>
          refine ⟨body, hargs, ?_⟩
          rw [List.getD_cons_zero]
        | j + 1 =>
          obtain ⟨b2, hb2, hb3⟩ := hget j (by simpa using hi)
          refine ⟨b2, hb2, ?_⟩
          rw [List.getD_cons_succ, hb3]
          rw [show idx + 1 + j + 1 = idx + (j + 1) + 1 from by omega]

/-- Claim C8, amended: for a batch in which every record emits at least one
argument, the compiled document is exactly the mode keyword line, then one
block line per record in order (alias n followed by the one-based local
index, the operation name addModel or validateModelForCreation with the
model name capitalized, the comma-joined arguments with the trailing comma
removed, the primary-key selection in mutation mode and none in validation
mode, each block ending in a newline), then the closing brace as the last
line.  The amendment (the at-least-one-argument proviso) is forced by the
all-elided edge case exhibited in the counterexample, where the opening
parenthesis is removed instead of a trailing comma. -/
theorem c8_document_shape_amended (dmd : DataModelDefinition) (isMut : Bool) (AD : String)
    (records : List Record)
    (_hne : records ≠ [])
    (hb : ∀ r ∈ records, ∃ args, argsText dmd AD r = Except.ok args ∧ args ≠ "") :
    ∃ blocks : List String,
      blocks.length = records.length ∧
      generateQueries records dmd isMut AD
        = Except.ok (gqKeyword isMut ++ strJoin blocks ++ "\x7d") ∧
      ∀ i, i < records.length → ∃ body,
        argsText dmd AD (records.getD i []) = Except.ok (body ++ ",") ∧
        blocks.getD i "" = "n" ++ toString (i + 1) ++ ": " ++ apiName dmd isMut
          ++ "(" ++ body ++ gqCloser dmd isMut := by
  obtain ⟨blocks, h1, h2, h3⟩ := buildBlocks_shape dmd isMut AD records 0 hb
  refine ⟨blocks, h1, ?_, ?_⟩
  · rw [generateQueries, h2]
  · intro i hi
    obtain ⟨body, hb1, hb2⟩ := h3 i hi
    refine ⟨body, hb1, ?_⟩
    rw [hb2, show 0 + i + 1 = i + 1 from by omega]

/-- Counterexample to claim C8 as stated: a record whose only field is
elided compiles to a block with no opening parenthesis at all (the slice
removes the parenthesis, not a trailing comma), so the document is not of
the claimed shape. -/
theorem c8_counterexample :
    generateQueries [[("x", "")]] ⟨"foo8", "id8", [("x", "String")], []⟩ true ","
      = Except.ok "mutation\x7b\nn1: addFoo8)\x7bid8\x7d\n\x7d"
    ∧ ("mutation\x7b\nn1: addFoo8)\x7bid8\x7d\n\x7d" : String)
      ≠ "mutation\x7b\nn1: addFoo8()\x7bid8\x7d\n\x7d" := by
  constructor
  · rfl
  · decide

/-- Witness for the amended C8 at a concrete two-record mutation batch. -/
theorem c8_document_shape_amended_witness :
    ∃ blocks : List String,
      blocks.length = 2 ∧
      generateQueries [[("a", "1")], [("b", "\"z\"")]]
          ⟨"qux", "qid", [("a", "Int"), ("b", "String")], []⟩ true ","
        = Except.ok (gqKeyword true ++ strJoin blocks ++ "\x7d") := by
  have hb : ∀ r ∈ ([[("a", "1")], [("b", "\"z\"")]] : List Record),
      ∃ args, argsText ⟨"qux", "qid", [("a", "Int"), ("b", "String")], []⟩ "," r
        = Except.ok args ∧ args ≠ "" := by
    intro r hr
    rcases List.mem_cons.mp hr with rfl | hr2
    · exact ⟨"a:1,", rfl, by decide⟩
    · rcases List.mem_singleton.mp hr2 with rfl
      exact ⟨"b:\"z\",", rfl, by decide⟩
  obtain ⟨blocks, h1, h2, h3⟩ :=
    c8_document_shape_amended ⟨"qux", "qid", [("a", "Int"), ("b", "String")], []⟩ true ","
      [[("a", "1")], [("b", "\"z\"")]] (by decide) hb
  exact ⟨blocks, by simpa using h1, h2⟩

theorem fieldPiece_unknown (dmd : DataModelDefinition) (AD k v : String)
    (h : typeOf dmd k = none) :
    fieldPiece dmd AD k v = Except.error (unknownFieldMsg k) := by
  rw [fieldPiece, h]

theorem argsText_unknown (dmd : DataModelDefinition) (AD k v : String)
    (h : typeOf dmd k = none) :
    ∀ (fpre : Record) (s : String), argsText dmd AD fpre = Except.ok s →
      ∀ fpost, argsText dmd AD (fpre ++ (k, v) :: fpost)
        = Except.error (unknownFieldMsg k) := by
  intro fpre
  induction fpre with
  | nil =>
    intro s _ fpost
    rw [List.nil_append, argsText, fieldPiece_unknown dmd AD k v h]
  | cons p rest ih =>
    obtain ⟨k1, v1⟩ := p
    intro s hs fpost
    rw [argsText] at hs
    split at hs
    · cases hs
    · rename_i piece hp
      split at hs
      · cases hs
      · rename_i t2 ht2
        rw [List.cons_append, argsText, hp, ih t2 ht2 fpost]

theorem buildBlocks_error (dmd : DataModelDefinition) (isMut : Bool) (AD : String)
    (r : Record) (msg : String)
    (hr : argsText dmd AD r = Except.error msg) :
    ∀ pre : List Record, (∀ q ∈ pre, ∃ a, argsText dmd AD q = Except.ok a) →
      ∀ post idx, buildBlocks dmd isMut AD (pre ++ r :: post) idx = Except.error msg := by
  intro pre
  induction pre with
  | nil =>
    intro _ post idx
    rw [List.nil_append, buildBlocks, blockText, hr]
  | cons q rest ih =>
    intro hpre post idx
    obtain ⟨a, ha⟩ := hpre q (List.mem_cons_self q rest)
    have hbq : blockText dmd isMut AD idx q
        = Except.ok (jsSlice0m1 ("n" ++ toString (idx + 1) ++ ": " ++ apiName dmd isMut
            ++ "(" ++ a) ++ gqCloser dmd isMut) := by
      rw [blockText, ha]
    rw [List.cons_append, buildBlocks, hbq,
      ih (fun z hz => hpre z (List.mem_cons_of_mem q hz)) post (idx + 1)]

/-- Claim C7: a record field whose name resolves neither through the
attribute map nor through the association map makes generateQueries throw
the unknown-field error naming that field (provided compilation reached it:
earlier records and earlier fields of the record serialized without error),
the whole batch compilation aborts with that error, and when the batch is
the single batch of a jsonProcessing run no document at all is passed to
the executor: the executed trace is empty and the run stops with the
compile error. -/
theorem c7_unknown_field (dmd : DataModelDefinition) (isVal : Bool) (AD : String) (B1 : Nat)
    (exec : String → GqlResponse) (pre post : List Record) (fpre fpost : Record)
    (k v s : String)
    (hk : typeOf dmd k = none)
    (hpre : ∀ q ∈ pre, ∃ a, argsText dmd AD q = Except.ok a)
    (hfpre : argsText dmd AD fpre = Except.ok s) :
    generateQueries (pre ++ (fpre ++ (k, v) :: fpost) :: post) dmd
        (if isVal then false else true) AD
      = Except.error (unknownFieldMsg k)
    ∧ ((pre ++ (fpre ++ (k, v) :: fpost) :: post).length ≤ B1 + 1 →
        jsonProcessing (pre ++ (fpre ++ (k, v) :: fpost) :: post) dmd isVal AD (B1 + 1) exec
          = ([], some (.compileError (unknownFieldMsg k)))) := by
  have hr := argsText_unknown dmd AD k v hk fpre s hfpre fpost
  have hgq : generateQueries (pre ++ (fpre ++ (k, v) :: fpost) :: post) dmd
      (if isVal then false else true) AD = Except.error (unknownFieldMsg k) := by
    rw [generateQueries,
      buildBlocks_error dmd (if isVal then false else true) AD _ _ hr pre hpre post 0]
  refine ⟨hgq, fun hle => ?_⟩
  obtain ⟨n, hn⟩ := Nat.exists_eq_succ_of_ne_zero
    (by simp : (pre ++ (fpre ++ (k, v) :: fpost) :: post).length ≠ 0)
  rw [jsonProcessing, hn]
  simp only [jsonProcessingGo]
  rw [if_neg (Nat.succ_ne_zero n), Nat.zero_mul, List.drop_zero,
    List.take_of_length_le hle, hgq]

/-- Witness for C7 at a concrete input: the field zzz is unknown to the
model, compilation throws its name and jsonProcessing executes nothing. -/
theorem c7_unknown_field_witness :
    generateQueries [[("a", "1"), ("zzz", "9")]] ⟨"mod7", "id7", [("a", "Int")], []⟩ true ","
      = Except.error (unknownFieldMsg "zzz")
    ∧ jsonProcessing [[("a", "1"), ("zzz", "9")]] ⟨"mod7", "id7", [("a", "Int")], []⟩
        false "," 1 (fun _ => ⟨none, none⟩)
      = ([], some (.compileError (unknownFieldMsg "zzz"))) := by
  have h := c7_unknown_field ⟨"mod7", "id7", [("a", "Int")], []⟩ false "," 0
    (fun _ => ⟨none, none⟩) [] [] [("a", "1")] [] "zzz" "9" "a:1,"
    (by decide) (fun q hq => absurd hq (List.not_mem_nil q)) rfl
  exact ⟨h.1, h.2 (by decide)⟩

/-- Counterexample to claim C3 as stated: a record field named by the raw
target key of an owning-side association (keysIn equal to the model name) is
emitted under its own raw name pet_id, not under the association creation
alias addPet: generateQueries performs no renaming. -/
theorem c3_counterexample :
    generateQueries [[("pet_id", "5")]]
        ⟨"foo3", "id3", [("pet_id", "Int")], [("pet", ⟨none, some "foo3", "pet_id"⟩)]⟩
        true ","
      = Except.ok "mutation\x7b\nn1: addFoo3(pet_id:5)\x7bid3\x7d\n\x7d"
    ∧ ("mutation\x7b\nn1: addFoo3(pet_id:5)\x7bid3\x7d\n\x7d" : String)
      ≠ "mutation\x7b\nn1: addFoo3(addPet:5)\x7bid3\x7d\n\x7d" :=
  ⟨rfl, by decide⟩

/-- Claim C3, amended: generateQueries renames nothing.  The association map
it builds is keyed by the creation alias add plus the capitalized relation
name itself; a record field bearing that alias name, when absent from the
attribute map, resolves its declared type through the association map (the
declared type of the association source or target key attribute) and is
emitted under its own alias name, with the ordinary value serialization for
the resolved type: every emitted argument of such a field is keyed by the
field name itself. -/
theorem c3_alias_resolution_amended (dmd : DataModelDefinition) (k v AD t : String)
    (hattr : jsLookup dmd.attributes k = none)
    (hassoc : jsLookup (addAssociations dmd) k = some (some t)) :
    typeOf dmd k = some t
    ∧ fieldPiece dmd AD k v = fieldPieceTy t AD k v
    ∧ ∀ s, fieldPieceTy t AD k v = Except.ok s →
        s = "" ∨ ∃ r2, s = k ++ ":" ++ r2 := by
  have hty : typeOf dmd k = some t := by
    rw [typeOf, hattr, hassoc]
  refine ⟨hty, by rw [fieldPiece, hty], ?_⟩
  intro s h
  rw [fieldPieceTy] at h
  split at h
  · cases h
  · split at h
    · cases h
      exact Or.inl rfl
    · split at h
      · split at h
        · cases h
        · rename_i array heq
          split at h
          · cases h
            refine Or.inr ⟨"[" ++ strIntercal "," array ++ "]" ++ ",", ?_⟩
            apply strEq_of_data
            simp [strData_append, show (":[" : String).data = [':', '['] from rfl,
              show (":" : String).data = [':'] from rfl,
              show ("[" : String).data = ['['] from rfl]
          · cases h
            refine Or.inr ⟨"[" ++ strIntercal "," (array.map jsonStringify) ++ "]" ++ ",", ?_⟩
            apply strEq_of_data
            simp [strData_append, show (":[" : String).data = [':', '['] from rfl,
              show (":" : String).data = [':'] from rfl,
              show ("[" : String).data = ['['] from rfl]
      · split at h
        · split at h
          · split at h
            · cases h
              exact Or.inr ⟨_ ++ ",", strAppend_assoc _ _ ","⟩
            · cases h
          · cases h
            exact Or.inr ⟨v ++ ",", strAppend_assoc _ v ","⟩
        · split at h
          · cases h
            exact Or.inr ⟨v ++ ",", strAppend_assoc _ v ","⟩
          · cases h
            exact Or.inr ⟨jsonStringify v ++ ",", strAppend_assoc _ _ ","⟩

/-- Witness for the amended C3: the field addPet, absent from the attribute
map, resolves to the Int type of the association target key and its argument
is emitted under the name addPet. -/
theorem c3_alias_resolution_amended_witness :
    typeOf ⟨"foo3", "id3", [("pet_id", "Int")], [("pet", ⟨none, some "foo3", "pet_id"⟩)]⟩
        "addPet" = some "Int"
    ∧ fieldPiece ⟨"foo3", "id3", [("pet_id", "Int")], [("pet", ⟨none, some "foo3", "pet_id"⟩)]⟩
        "," "addPet" "5" = fieldPieceTy "Int" "," "addPet" "5"
    ∧ (("addPet:5," : String) = ""
        ∨ ∃ r2, ("addPet:5," : String) = "addPet" ++ ":" ++ r2) := by
  have h := c3_alias_resolution_amended
    ⟨"foo3", "id3", [("pet_id", "Int")], [("pet", ⟨none, some "foo3", "pet_id"⟩)]⟩
    "addPet" "5" "," "Int" (by decide) (by decide)
  exact ⟨h.1, h.2.1, h.2.2 "addPet:5," rfl⟩

theorem strAppend_ne_empty_right (a b : String) (hb : b ≠ "") : a ++ b ≠ "" := by
  intro h
  apply hb
  apply strEq_of_data
  have hd : (a ++ b).data = [] := by rw [h]
  rw [strData_append] at hd
  exact (List.append_eq_nil.mp hd).2

theorem strAppend_ne_empty_left (a b : String) (ha : a ≠ "") : a ++ b ≠ "" := by
  intro h
  apply ha
  apply strEq_of_data
  have hd : (a ++ b).data = [] := by rw [h]
  rw [strData_append] at hd
  exact (List.append_eq_nil.mp hd).1

theorem foldl_append_tokens {α : Type} (g : α → String) :
    ∀ (l : List α) (acc : String),
      l.foldl (fun row a => row ++ g a) acc = acc ++ strJoin (l.map g) := by
  intro l
  induction l with
  | nil =>
    intro acc
    rw [List.foldl_nil, List.map_nil]
    exact (strAppend_empty acc).symm
  | cons a rest ih =>
    intro acc
    rw [List.foldl_cons, ih, List.map_cons]
    exact strAppend_assoc acc (g a) (strJoin (rest.map g))

theorem strJoin_tokens_slice (FD : String) (hFD : FD.data.length = 1) :
    ∀ tokens : List String,
      jsSlice0m1 (strJoin (tokens.map (fun tk => tk ++ FD))) = strIntercal FD tokens := by
  have hFDne : FD ≠ "" := by
    intro h
    rw [h] at hFD
    cases hFD
  intro tokens
  induction tokens with
  | nil => rfl
  | cons tk rest ih =>
    cases rest with
    | nil =>
      show jsSlice0m1 ((tk ++ FD) ++ strJoin []) = tk
      rw [show strJoin [] = "" from rfl, strAppend_empty]
      exact jsSlice_append_single tk FD hFD
    | cons tk2 rest2 =>
      show jsSlice0m1 ((tk ++ FD) ++ strJoin (((tk2 :: rest2).map (fun tk => tk ++ FD))))
        = tk ++ FD ++ strIntercal FD (tk2 :: rest2)
      rw [jsSlice_append_left _ _ (by
        show (tk2 ++ FD) ++ strJoin (rest2.map (fun tk => tk ++ FD)) ≠ ""
        exact strAppend_ne_empty_left _ _ (strAppend_ne_empty_right tk2 FD hFDne))]
      rw [ih]

theorem bulkRowFold_tokens (attributes : List String) (record : List (String × AttrVal))
    (FD AD : String) :
    bulkRowFold attributes record FD AD
      = strJoin (attributes.map (fun a => bulkToken AD (jsLookup record a) ++ FD)) := by
  rw [bulkRowFold]
  have hstep : (fun (row : String) (attr : String) =>
      match jsLookup record attr with
      | none => row ++ "\"NULL\"" ++ FD
      | some .vnull => row ++ "\"NULL\"" ++ FD
      | some .vundef => row ++ "\"NULL\"" ++ FD
      | some (.varr []) => row ++ "\"NULL\"" ++ FD
      | some (.varr (x :: xs)) => row ++ "\"" ++ strIntercal AD (x :: xs) ++ "\"" ++ FD
      | some (.vstr s) => row ++ "\"" ++ s ++ "\"" ++ FD)
      = fun (row : String) (attr : String) => row ++ (bulkToken AD (jsLookup record attr) ++ FD) := by
    funext row attr
    cases hv : jsLookup record attr with
    | none =>
      show row ++ "\"NULL\"" ++ FD = row ++ ("\"NULL\"" ++ FD)
      exact strAppend_assoc row _ FD
    | some v =>
      cases v with
      | vnull => exact strAppend_assoc row _ FD
      | vundef => exact strAppend_assoc row _ FD
      | vstr s =>
        show row ++ "\"" ++ s ++ "\"" ++ FD = row ++ (("\"" ++ s ++ "\"") ++ FD)
        apply strEq_of_data
        simp [strData_append]
      | varr l =>
        cases l with
        | nil => exact strAppend_assoc row _ FD
        | cons x xs =>
          show row ++ "\"" ++ strIntercal AD (x :: xs) ++ "\"" ++ FD
            = row ++ (("\"" ++ strIntercal AD (x :: xs) ++ "\"") ++ FD)
          apply strEq_of_data
          simp [strData_append]
  rw [hstep, foldl_append_tokens (fun a => bulkToken AD (jsLookup record a) ++ FD) attributes "",
    strEmpty_append]

/-- Claim C9, amended: provided the configured field delimiter is a single
character, the line written for one exported record is exactly the quoted
attribute tokens (a non-empty list joined with the array delimiter inside
one quoted token; null, undefined, an absent key and an empty list giving
the quoted NULL sentinel) joined with the field delimiter, with no trailing
delimiter, followed by the record delimiter.  The proviso is forced by the
counterexample: the code removes exactly one trailing character, which
equals the trailing field delimiter only when that delimiter is one
character long. -/
theorem c9_row_serialization_amended (attributes : List String)
    (record : List (String × AttrVal)) (FD AD RD : String) (hFD : FD.data.length = 1) :
    bulkDownloadRow attributes record FD AD RD
      = strIntercal FD (attributes.map (fun a => bulkToken AD (jsLookup record a))) ++ RD := by
  rw [bulkDownloadRow, bulkRowFold_tokens]
  rw [show attributes.map (fun a => bulkToken AD (jsLookup record a) ++ FD)
      = (attributes.map (fun a => bulkToken AD (jsLookup record a))).map (fun tk => tk ++ FD)
    from by rw [List.map_map]; rfl]
  rw [strJoin_tokens_slice FD hFD]

/-- Counterexample to claim C9 as stated: with the two-character field
delimiter ;; the written row keeps a dangling trailing character, because
the source removes exactly one character rather than one delimiter, so the
row is not the delimiter-join of the quoted tokens. -/
theorem c9_counterexample :
    bulkDownloadRow ["p", "q"] [("p", .vstr "x"), ("q", .vstr "y")] ";;" "|" "\n"
      = "\"x\";;\"y\";\n"
    ∧ bulkDownloadRow ["p", "q"] [("p", .vstr "x"), ("q", .vstr "y")] ";;" "|" "\n"
      ≠ strIntercal ";;" (["p", "q"].map (fun a =>
          bulkToken "|" (jsLookup [("p", AttrVal.vstr "x"), ("q", AttrVal.vstr "y")] a)))
        ++ "\n" := by
  refine ⟨rfl, ?_⟩
  decide

/-- Witness for the amended C9: a scalar, a list and an absent attribute
serialize to the claimed comma-joined quoted tokens. -/
theorem c9_row_serialization_amended_witness :
    bulkDownloadRow ["p", "q", "r"] [("p", .vstr "x"), ("q", .varr ["u", "v"])] "," "|" "\n"
      = strIntercal "," (["p", "q", "r"].map (fun a =>
          bulkToken "|" (jsLookup [("p", AttrVal.vstr "x"), ("q", AttrVal.varr ["u", "v"])] a)))
        ++ "\n"
    ∧ bulkDownloadRow ["p", "q", "r"] [("p", .vstr "x"), ("q", .varr ["u", "v"])] "," "|" "\n"
      = "\"x\",\"u|v\",\"NULL\"\n" :=
  ⟨c9_row_serialization_amended ["p", "q", "r"]
    [("p", .vstr "x"), ("q", .varr ["u", "v"])] "," "|" "\n" rfl, rfl⟩

/-- Claim C5 is right about the in-memory path and wrong about the code of
the streaming path, where it contradicts the clear intent (the promise is
rejected to abort the run, and the in-memory path does abort): after a
failing batch csvProcessing rejects the promise but then clears the buffer,
increments the batch ordinal and resumes the parser, so the remaining source
is drained and later batches are still compiled and sent to the executor.
This theorem evaluates both paths at the failing input: two one-record
batches whose first response carries an error.  The streaming run sends both
documents and settles rejected with the first report; the in-memory run
sends only the first document and stops. -/
theorem c5_csv_continues_after_failure :
    csvProcessing [[("a", "1")], [("a", "2")]] ⟨"foo", "id", [("a", "Int")], []⟩ false "," 1
        (fun d => if d = "mutation\x7b\nn1: addFoo(a:1)\x7bid\x7d\n\x7d"
          then ⟨none, some [⟨"boom", none, none, [2]⟩]⟩ else ⟨none, none⟩)
      = (["mutation\x7b\nn1: addFoo(a:1)\x7bid\x7d\n\x7d",
          "mutation\x7b\nn1: addFoo(a:2)\x7bid\x7d\n\x7d"],
         .rejectedReport [("record1",
           ⟨some "n1: addFoo(a:1)\x7bid\x7d", ⟨"boom", none, none, [2]⟩⟩)])
    ∧ jsonProcessing [[("a", "1")], [("a", "2")]] ⟨"foo", "id", [("a", "Int")], []⟩ false "," 1
        (fun d => if d = "mutation\x7b\nn1: addFoo(a:1)\x7bid\x7d\n\x7d"
          then ⟨none, some [⟨"boom", none, none, [2]⟩]⟩ else ⟨none, none⟩)
      = (["mutation\x7b\nn1: addFoo(a:1)\x7bid\x7d\n\x7d"],
         some (.batchFailed [("record1",
           ⟨some "n1: addFoo(a:1)\x7bid\x7d", ⟨"boom", none, none, [2]⟩⟩)])) :=
  ⟨rfl, rfl⟩

theorem jsLookup_jsSet_self {α : Type} (m : List (String × α)) (k : String) (v : α) :
    jsLookup (jsSet m k v) k = some v := by
  induction m with
  | nil => simp [jsSet, jsLookup]
  | cons p rest ih =>
    obtain ⟨k1, y⟩ := p
    by_cases h : k1 = k
    · subst h
      simp [jsSet, jsLookup]
    · simp [jsSet, jsLookup, h, ih]

theorem jsLookup_jsSet_ne {α : Type} (m : List (String × α)) (k k2 : String) (v : α)
    (h : k2 ≠ k) : jsLookup (jsSet m k2 v) k = jsLookup m k := by
  induction m with
  | nil => simp [jsSet, jsLookup, h]
  | cons p rest ih =>
    obtain ⟨k1, y⟩ := p
    by_cases h1 : k1 = k2
    · subst h1
      simp [jsSet, jsLookup, h]
    · simp only [jsSet, if_neg h1]
      by_cases h2 : k1 = k
      · subst h2
        simp [jsLookup]
      · simp [jsLookup, h2, ih]

theorem lineBranchGo_preserve (subqueries : List String) (B bn : Nat) :
    ∀ (errs : List GqlError) (acc entries : List (String × ParsedEntry)) (k : String),
      lineBranchGo subqueries B bn errs acc = Except.ok entries →
      (∀ e ∈ errs,
        "record" ++ toString ((B : Int) * (bn : Int) + (e.locations.headD 0 - 1)) ≠ k) →
      jsLookup entries k = jsLookup acc k := by
  intro errs
  induction errs with
  | nil =>
    intro acc entries k h _
    cases h
    rfl
  | cons e rest ih =>
    intro acc entries k h hk
    rw [lineBranchGo] at h
    cases hloc : e.locations with
    | nil =>
      rw [hloc] at h
      cases h
    | cons l ls =>
      rw [hloc] at h
      simp only [List.head?_cons] at h
      have hkey := hk e (List.mem_cons_self e rest)
      rw [hloc] at hkey
      simp only [List.headD_cons] at hkey
      rw [ih _ entries k h (fun q hq => hk q (List.mem_cons_of_mem e hq)),
        jsLookup_jsSet_ne _ _ _ _ hkey]

theorem lineBranchGo_lookup (subqueries : List String) (B bn : Nat) :
    ∀ (errs : List GqlError) (acc : List (String × ParsedEntry)),
      (∀ e ∈ errs, e.locations ≠ []) →
      (errs.map (fun e =>
        "record" ++ toString ((B : Int) * (bn : Int) + (e.locations.headD 0 - 1)))).Pairwise (· ≠ ·) →
      ∃ entries, lineBranchGo subqueries B bn errs acc = Except.ok entries ∧
        ∀ e ∈ errs, ∀ l : Int, e.locations.head? = some l →
          jsLookup entries ("record" ++ toString ((B : Int) * (bn : Int) + (l - 1)))
            = some ⟨jsIndex subqueries (l - 1 - 1), e⟩ := by
  intro errs
  induction errs with
  | nil =>
    intro acc _ _
    exact ⟨acc, rfl, fun e he => absurd he (List.not_mem_nil e)⟩
  | cons e rest ih =>
    intro acc hne hdist
    cases hloc : e.locations with
    | nil => exact absurd hloc (hne e (List.mem_cons_self e rest))
    | cons l ls =>
      rw [List.map_cons, List.pairwise_cons] at hdist
      obtain ⟨hd1, hd2⟩ := hdist
      obtain ⟨entries, hgo, hlook⟩ :=
        ih (jsSet acc ("record" ++ toString ((B : Int) * (bn : Int) + (l - 1)))
            ⟨jsIndex subqueries (l - 1 - 1), e⟩)
          (fun q hq => hne q (List.mem_cons_of_mem e hq)) hd2
      refine ⟨entries, ?_, ?_⟩
      · rw [lineBranchGo, hloc]
        simp only [List.head?_cons]
        exact hgo
      · intro e2 he2 l2 hl2
        rcases List.mem_cons.mp he2 with rfl | hmem
        · rw [hloc] at hl2
          simp only [List.head?_cons, Option.some.injEq] at hl2
          subst hl2
          have hne2 : ∀ q ∈ rest,
              "record" ++ toString ((B : Int) * (bn : Int) + (q.locations.headD 0 - 1))
                ≠ "record" ++ toString ((B : Int) * (bn : Int) + (l - 1)) := by
            intro q hq
            have hq2 := hd1 _ (List.mem_map_of_mem
              (fun e => "record" ++ toString ((B : Int) * (bn : Int) + (e.locations.headD 0 - 1))) hq)
            rw [hloc] at hq2
            simp only [List.headD_cons] at hq2
            exact fun hcontra => hq2 hcontra.symm
          rw [lineBranchGo_preserve subqueries B bn rest _ entries _ hgo hne2,
            jsLookup_jsSet_self]
        · exact hlook e2 hmem l2 hl2

/-- Claim C4: in the line-number strategy (response without data, with
errors), each error is mapped by taking the line of its first location,
subtracting one to obtain the record's one-based position among the record
blocks, keyed by the global ordinal batch_size times batch_num plus that
position, and the entry carries both the sub-query text of that line (the
record blocks being the document lines without the first and last) and the
error itself.  Errors are assumed to carry a location and to target
pairwise distinct keys (otherwise later entries overwrite earlier ones at
the same key). -/
theorem c4_line_strategy (queries : String) (errs : List GqlError) (B bn : Nat)
    (hne : ∀ e ∈ errs, e.locations ≠ [])
    (hdist : (errs.map (fun e =>
      "record" ++ toString ((B : Int) * (bn : Int) + (e.locations.headD 0 - 1)))).Pairwise (· ≠ ·)) :
    ∃ entries, responseParser queries ⟨none, some errs⟩ B bn = Except.ok entries ∧
      ∀ e ∈ errs, ∀ l : Int, e.locations.head? = some l →
        jsLookup entries ("record" ++ toString ((B : Int) * (bn : Int) + (l - 1)))
          = some ⟨jsIndex (((jsSplit queries "\n").drop 1).dropLast) (l - 1 - 1), e⟩ := by
  obtain ⟨entries, hgo, hlook⟩ :=
    lineBranchGo_lookup (((jsSplit queries "\n").drop 1).dropLast) B bn errs [] hne hdist
  exact ⟨entries, hgo, hlook⟩

/-- Witness for C4, realizing the concrete scenario of the claim: a
two-record document and one error located at line 2, with batch size 5 and
batch number 1.  The entry is keyed record6, the global ordinal of the first
record of the batch, and carries the first record block as sub-query. -/
theorem c4_line_strategy_witness :
    ∃ entries,
      responseParser "mutation\x7b\nn1: addBaz(c:3)\x7bzid\x7d\nn2: addBaz(c:4)\x7bzid\x7d\n\x7d"
          ⟨none, some [⟨"oops", none, none, [2]⟩]⟩ 5 1 = Except.ok entries ∧
      jsLookup entries
          ("record" ++ toString (((5 : Nat) : Int) * ((1 : Nat) : Int) + ((2 : Int) - 1)))
        = some ⟨jsIndex (((jsSplit
            "mutation\x7b\nn1: addBaz(c:3)\x7bzid\x7d\nn2: addBaz(c:4)\x7bzid\x7d\n\x7d"
            "\n").drop 1).dropLast) ((2 : Int) - 1 - 1), ⟨"oops", none, none, [2]⟩⟩ ∧
      ("record" ++ toString (((5 : Nat) : Int) * ((1 : Nat) : Int) + ((2 : Int) - 1)) : String)
        = "record6" ∧
      jsIndex (((jsSplit
          "mutation\x7b\nn1: addBaz(c:3)\x7bzid\x7d\nn2: addBaz(c:4)\x7bzid\x7d\n\x7d"
          "\n").drop 1).dropLast) ((2 : Int) - 1 - 1)
        = some "n1: addBaz(c:3)\x7bzid\x7d" := by
  obtain ⟨entries, hok, hlook⟩ := c4_line_strategy
    "mutation\x7b\nn1: addBaz(c:3)\x7bzid\x7d\nn2: addBaz(c:4)\x7bzid\x7d\n\x7d"
    [⟨"oops", none, none, [2]⟩] 5 1
    (by intro e he; rcases List.mem_singleton.mp he with rfl; decide)
    (by simp)
  exact ⟨entries, hok,
    hlook ⟨"oops", none, none, [2]⟩ (List.mem_singleton.mpr rfl) 2 rfl,
    by decide, by decide⟩

theorem responseParser_clean (queries : String) (resp : GqlResponse) (B bn : Nat)
    (h : resp.errors = none) : responseParser queries resp B bn = Except.ok [] := by
  simp only [responseParser, h]

theorem ceil_succ_step (rn B1 : Nat) (h : 1 ≤ rn) :
    (rn + B1) / (B1 + 1) = (rn - (B1 + 1) + B1) / (B1 + 1) + 1 := by
  have hL : (rn + B1) / (B1 + 1) = (rn - 1) / (B1 + 1) + 1 := by
    rw [show rn + B1 = (rn - 1) + (B1 + 1) from by omega,
      Nat.add_div_right _ (Nat.succ_pos B1)]
  rcases Nat.lt_or_ge rn (B1 + 1) with hlt | hge
  · rw [show rn - (B1 + 1) + B1 = B1 from by omega,
      Nat.div_eq_of_lt (Nat.lt_succ_self B1), hL,
      Nat.div_eq_of_lt (by omega : rn - 1 < B1 + 1)]
  · rw [show rn - (B1 + 1) + B1 = rn - 1 from by omega, hL]

theorem jsonProcessingGo_clean (dmd : DataModelDefinition) (isMut : Bool) (AD : String)
    (B1 : Nat) (exec : String → GqlResponse) (records : List Record)
    (hclean : ∀ d, (exec d).errors = none) :
    ∀ (fuel rn bn : Nat), rn ≤ fuel →
      (∀ i, bn ≤ i → i < bn + (rn + B1) / (B1 + 1) →
        ∃ d, generateQueries ((records.drop (i * (B1 + 1))).take (B1 + 1)) dmd isMut AD
          = Except.ok d) →
      ∃ docs, jsonProcessingGo dmd isMut AD (B1 + 1) exec records fuel rn bn = (docs, none)
        ∧ docs.length = (rn + B1) / (B1 + 1)
        ∧ ∀ i (hi : i < docs.length),
            generateQueries ((records.drop ((bn + i) * (B1 + 1))).take (B1 + 1)) dmd isMut AD
              = Except.ok (docs.get ⟨i, hi⟩) := by
  intro fuel
  induction fuel with
  | zero =>
    intro rn bn hle _
    have h0 : rn = 0 := Nat.le_zero.mp hle
    subst h0
    refine ⟨[], rfl, ?_, fun i hi => absurd hi (by simp)⟩
    rw [List.length_nil, Nat.div_eq_of_lt (by omega : 0 + B1 < B1 + 1)]
  | succ fuel ih =>
    intro rn bn hle hcomp
    by_cases h0 : rn = 0
    · subst h0
      refine ⟨[], ?_, ?_, fun i hi => absurd hi (by simp)⟩
      · simp only [jsonProcessingGo, if_pos]
      · rw [List.length_nil, Nat.div_eq_of_lt (by omega : 0 + B1 < B1 + 1)]
    · have h1 : 1 ≤ rn := Nat.one_le_iff_ne_zero.mpr h0
      have hceil : 0 < (rn + B1) / (B1 + 1) := by
        rw [ceil_succ_step rn B1 h1]
        exact Nat.succ_pos _
      obtain ⟨d, hd⟩ := hcomp bn (le_refl bn) (by omega)
      have hrp : responseParser d (exec d) (B1 + 1) bn = Except.ok [] :=
        responseParser_clean d (exec d) (B1 + 1) bn (hclean d)
      obtain ⟨docs, hgo, hlen, hget⟩ := ih (rn - (B1 + 1)) (bn + 1) (by omega)
        (fun i hi1 hi2 => hcomp i (by omega)
          (by rw [ceil_succ_step rn B1 h1]; omega))
      refine ⟨d :: docs, ?_, ?_, ?_⟩
      · simp only [jsonProcessingGo, if_neg h0, hd, hrp, hgo, List.length_nil]
        rw [if_neg (by decide : ¬((0 : Nat) > 0))]
      · rw [List.length_cons, hlen, ceil_succ_step rn B1 h1]
      · intro i hi
        cases i with
        | zero => exact hd
        | succ j =>
          have hj := hget j (by simpa using hi)
          rw [show bn + (j + 1) = bn + 1 + j from by omega]
          exact hj


theorem matchErrorGo_some (m : JsObj) :
    ∀ (inputs : List (Option JsObj)) (i : Nat) (acc : Option Nat) (k : Nat),
      matchErrorGo m inputs i acc = some k →
      (acc = some k ∧ ∀ j, j < inputs.length → inputMatches (inputs.getD j none) m = false)
      ∨ (∃ j, j < inputs.length ∧ k = i + j ∧ inputMatches (inputs.getD j none) m = true ∧
          ∀ j2, j < j2 → j2 < inputs.length → inputMatches (inputs.getD j2 none) m = false) := by
  intro inputs
  induction inputs with
  | nil =>
    intro i acc k h
    exact Or.inl ⟨h, fun j hj => absurd hj (by simp)⟩
  | cons inp rest ih =>
    intro i acc k h
    rw [matchErrorGo] at h
    by_cases hm : inputMatches inp m = true
    · rw [if_pos hm] at h
      rcases ih (i + 1) (some i) k h with ⟨hacc, hall⟩ | ⟨j, hj, hk, hmj, hafter⟩
      · cases hacc
        refine Or.inr ⟨0, by simp, by omega, by simpa using hm, ?_⟩
        intro j2 h0 hlen
        cases j2 with
        | zero => omega
        | succ j3 =>
          rw [List.getD_cons_succ]
          exact hall j3 (by simpa using hlen)
      · refine Or.inr ⟨j + 1, by simpa using hj, by omega, by rwa [List.getD_cons_succ], ?_⟩
        intro j2 hgt hlen
        cases j2 with
        | zero => omega
        | succ j3 =>
          rw [List.getD_cons_succ]
          exact hafter j3 (by omega) (by simpa using hlen)
    · rw [if_neg hm] at h
      have hm2 : inputMatches inp m = false := by
        rcases Bool.eq_false_or_eq_true (inputMatches inp m) with h2 | h2
        · exact absurd h2 hm
        · exact h2
      rcases ih (i + 1) acc k h with ⟨hacc, hall⟩ | ⟨j, hj, hk, hmj, hafter⟩
      · refine Or.inl ⟨hacc, ?_⟩
        intro j hjl
        cases j with
        | zero => rw [List.getD_cons_zero]; exact hm2
        | succ j3 =>
          rw [List.getD_cons_succ]
          exact hall j3 (by simpa using hjl)
      · refine Or.inr ⟨j + 1, by simpa using hj, by omega, by rwa [List.getD_cons_succ], ?_⟩
        intro j2 hgt hlen
        cases j2 with
        | zero => omega
        | succ j3 =>
          rw [List.getD_cons_succ]
          exact hafter j3 (by omega) (by simpa using hlen)

theorem matchError_last (inputs : List (Option JsObj)) (m : JsObj) (k : Nat)
    (h : matchError inputs m = some k) :
    k < inputs.length ∧ inputMatches (inputs.getD k none) m = true ∧
      ∀ k2, k < k2 → k2 < inputs.length → inputMatches (inputs.getD k2 none) m = false := by
  rcases matchErrorGo_some m inputs 0 none k h with ⟨hacc, _⟩ | ⟨j, hj, hk, hmj, hafter⟩
  · cases hacc
  · rw [Nat.zero_add] at hk
    subst hk
    exact ⟨hj, hmj, hafter⟩

theorem buildMapQueriesGo_sound (data : List (String × JsVal)) (inputs : List (Option JsObj)) :
    ∀ (subqs : List String) (qi0 : Nat) (acc res : List (Nat × Nat)),
      buildMapQueriesGo data inputs subqs qi0 acc = Except.ok res →
      ∀ p ∈ res, p ∈ acc ∨
        ∃ q rest1 m, qi0 ≤ p.1 ∧ subqs.get? (p.1 - qi0) = some q ∧
          jsLookup data ((jsSplit q ": ").headD "") = some (.vbool false) ∧
          (jsSplit q ": ").get? 1 = some rest1 ∧
          reconstructArgs rest1 = Except.ok m ∧
          matchError inputs m = some p.2 := by
  intro subqs
  induction subqs with
  | nil =>
    intro qi0 acc res h p hp
    cases h
    exact Or.inl hp
  | cons q rest ih =>
    intro qi0 acc res h p hp
    rw [buildMapQueriesGo] at h
    split at h
    · rename_i hflag
      split at h
      · cases h
      · rename_i rest1 hrest1
        split at h
        · cases h
        · rename_i m hm
          split at h
          · rename_i ei hmatch
            rcases ih (qi0 + 1) (acc ++ [(qi0, ei)]) res h p hp with hin | hshift
            · rcases List.mem_append.mp hin with hin2 | hin3
              · exact Or.inl hin2
              · rcases List.mem_singleton.mp hin3 with rfl
                refine Or.inr ⟨q, rest1, m, le_refl qi0, ?_, hflag, hrest1, hm, ?_⟩
                · rw [Nat.sub_self]
                  rfl
                · exact hmatch
            · obtain ⟨q2, rest2, m2, hle2, hget2, hflag2, hrest2, hrec2, hmatch2⟩ := hshift
              refine Or.inr ⟨q2, rest2, m2, by omega, ?_, hflag2, hrest2, hrec2, hmatch2⟩
              rw [show p.1 - qi0 = (p.1 - (qi0 + 1)) + 1 from by omega]
              rw [List.get?_cons_succ]
              exact hget2
          · rcases ih (qi0 + 1) acc res h p hp with hin | hshift
            · exact Or.inl hin
            · obtain ⟨q2, rest2, m2, hle2, hget2, hflag2, hrest2, hrec2, hmatch2⟩ := hshift
              refine Or.inr ⟨q2, rest2, m2, by omega, ?_, hflag2, hrest2, hrec2, hmatch2⟩
              rw [show p.1 - qi0 = (p.1 - (qi0 + 1)) + 1 from by omega]
              rw [List.get?_cons_succ]
              exact hget2
    · rcases ih (qi0 + 1) acc res h p hp with hin | hshift
      · exact Or.inl hin
      · obtain ⟨q2, rest2, m2, hle2, hget2, hflag2, hrest2, hrec2, hmatch2⟩ := hshift
        refine Or.inr ⟨q2, rest2, m2, by omega, ?_, hflag2, hrest2, hrec2, hmatch2⟩
        rw [show p.1 - qi0 = (p.1 - (qi0 + 1)) + 1 from by omega]
        rw [List.get?_cons_succ]
        exact hget2

/-- Claim C2, amended: in the data branch, every produced entry comes from a
record block whose alias is mapped to the boolean false in response.data and
whose argument mapping was reconstructed from the document text; the entry is
keyed by the global ordinal of that block, carries no sub-query text, and is
paired with the LAST error of response.errors whose declared input (input or
extensions.input) deep-equals the reconstructed mapping — not the first as
claimed: every later error does not match, but earlier ones may. -/
theorem c2_last_match_amended (queries : String) (d : List (String × JsVal))
    (errs : List GqlError) (B bn : Nat) (entries : List (String × ParsedEntry))
    (h : responseParser queries ⟨some d, some errs⟩ B bn = Except.ok entries) :
    ∀ p ∈ entries, ∃ qi k q rest1 m,
      p.1 = "record" ++ toString (B * bn + qi + 1) ∧
      p.2 = (⟨none, errs.getD k defaultGqlError⟩ : ParsedEntry) ∧
      (((jsSplit queries "\n").drop 1).dropLast).get? qi = some q ∧
      jsLookup d ((jsSplit q ": ").headD "") = some (.vbool false) ∧
      (jsSplit q ": ").get? 1 = some rest1 ∧
      reconstructArgs rest1 = Except.ok m ∧
      k < (errs.map errInput).length ∧
      inputMatches ((errs.map errInput).getD k none) m = true ∧
      (∀ k2, k < k2 → k2 < (errs.map errInput).length →
        inputMatches ((errs.map errInput).getD k2 none) m = false) := by
  intro p hp
  simp only [responseParser] at h
  rw [dataBranch] at h
  split at h
  · cases h
  · rename_i pairs hpairs
    cases h
    obtain ⟨pr, hpr, rfl⟩ := List.mem_map.mp hp
    rcases buildMapQueriesGo_sound d (errs.map errInput)
        (((jsSplit queries "\n").drop 1).dropLast) 0 [] pairs hpairs pr hpr with
      hin | ⟨q, rest1, m, _, hget, hflag, hrest1, hrec, hmatch⟩
    · exact absurd hin (List.not_mem_nil pr)
    · obtain ⟨hklen, hkmatch, hkafter⟩ := matchError_last _ m pr.2 hmatch
      rw [Nat.sub_zero] at hget
      exact ⟨pr.1, pr.2, q, rest1, m, rfl, rfl, hget, hflag, hrest1, hrec,
        hklen, hkmatch, hkafter⟩

/-- Counterexample to claim C2 as stated: two errors both carry an input
deep-equal to the reconstructed mapping of the failing alias, and the entry
stores the second (last) one, not the first. -/
theorem c2_counterexample :
    responseParser "\x7b\nn1: validateFooForCreation(a:1)\n\x7d"
        ⟨some [("n1", .vbool false)],
         some [⟨"first", some [("a", .vint 1)], none, []⟩,
               ⟨"second", some [("a", .vint 1)], none, []⟩]⟩ 5 0
      = Except.ok [("record1", ⟨none, ⟨"second", some [("a", .vint 1)], none, []⟩⟩)]
    ∧ inputMatches (errInput ⟨"first", some [("a", .vint 1)], none, []⟩)
        [("a", JsVal.vint 1)] = true
    ∧ (⟨"second", some [("a", .vint 1)], none, []⟩ : GqlError)
      ≠ ⟨"first", some [("a", .vint 1)], none, []⟩ :=
  ⟨by decide, rfl, by decide⟩

/-- Witness for the amended C2 at a concrete input: the single entry of a
one-alias failing response pairs with error index one, the last matching
input, with the key built from the global ordinal and no attached sub-query. -/
theorem c2_last_match_amended_witness :
    ∃ qi k q rest1 m,
      ("record1" : String) = "record" ++ toString (1 * 0 + qi + 1) ∧
      (⟨none, ⟨"match", some [("b", JsVal.vint 2)], none, []⟩⟩ : ParsedEntry)
        = (⟨none, [(⟨"nomatch", some [("b", JsVal.vint 3)], none, []⟩ : GqlError),
            ⟨"match", some [("b", JsVal.vint 2)], none, []⟩].getD k defaultGqlError⟩ : ParsedEntry) ∧
      (((jsSplit "\x7b\nn1: validateBarForCreation(b:2)\n\x7d" "\n").drop 1).dropLast).get? qi
        = some q ∧
      jsLookup [("n1", JsVal.vbool false)] ((jsSplit q ": ").headD "")
        = some (.vbool false) ∧
      (jsSplit q ": ").get? 1 = some rest1 ∧
      reconstructArgs rest1 = Except.ok m ∧
      k < ([(⟨"nomatch", some [("b", JsVal.vint 3)], none, []⟩ : GqlError),
            ⟨"match", some [("b", JsVal.vint 2)], none, []⟩].map errInput).length ∧
      inputMatches (([(⟨"nomatch", some [("b", JsVal.vint 3)], none, []⟩ : GqlError),
            ⟨"match", some [("b", JsVal.vint 2)], none, []⟩].map errInput).getD k none) m = true ∧
      (∀ k2, k < k2 →
        k2 < ([(⟨"nomatch", some [("b", JsVal.vint 3)], none, []⟩ : GqlError),
            ⟨"match", some [("b", JsVal.vint 2)], none, []⟩].map errInput).length →
        inputMatches (([(⟨"nomatch", some [("b", JsVal.vint 3)], none, []⟩ : GqlError),
            ⟨"match", some [("b", JsVal.vint 2)], none, []⟩].map errInput).getD k2 none) m
          = false) := by
  have h := c2_last_match_amended "\x7b\nn1: validateBarForCreation(b:2)\n\x7d"
    [("n1", JsVal.vbool false)]
    [⟨"nomatch", some [("b", JsVal.vint 3)], none, []⟩,
     ⟨"match", some [("b", JsVal.vint 2)], none, []⟩] 1 0
    [("record1", ⟨none, ⟨"match", some [("b", JsVal.vint 2)], none, []⟩⟩)] (by decide)
  exact h ("record1", ⟨none, ⟨"match", some [("b", JsVal.vint 2)], none, []⟩⟩)
    (List.mem_singleton.mpr rfl)

theorem toString_int_ofNat (n : Nat) : toString ((n : Nat) : Int) = toString n := rfl

theorem jsSet_mem {α : Type} :
    ∀ (m : List (String × α)) (k : String) (v : α) (p : String × α),
      p ∈ jsSet m k v → p ∈ m ∨ p = (k, v) := by
  intro m
  induction m with
  | nil =>
    intro k v p hp
    exact Or.inr (List.mem_singleton.mp hp)
  | cons q rest ih =>
    intro k v p hp
    obtain ⟨k1, y⟩ := q
    rw [jsSet] at hp
    by_cases h1 : k1 = k
    · rw [if_pos h1] at hp
      rcases List.mem_cons.mp hp with rfl | hmem
      · exact Or.inr rfl
      · exact Or.inl (List.mem_cons_of_mem _ hmem)
    · rw [if_neg h1] at hp
      rcases List.mem_cons.mp hp with rfl | hmem
      · exact Or.inl (List.mem_cons_self _ _)
      · rcases ih k v p hmem with hin | heq
        · exact Or.inl (List.mem_cons_of_mem _ hin)
        · exact Or.inr heq

theorem lineBranchGo_mem (subqueries : List String) (B bn : Nat) :
    ∀ (errs : List GqlError) (acc entries : List (String × ParsedEntry)),
      lineBranchGo subqueries B bn errs acc = Except.ok entries →
      ∀ p ∈ entries, p ∈ acc ∨ ∃ e l, e ∈ errs ∧ e.locations.head? = some l ∧
        p = ("record" ++ toString ((B : Int) * (bn : Int) + (l - 1)),
             (⟨jsIndex subqueries (l - 1 - 1), e⟩ : ParsedEntry)) := by
  intro errs
  induction errs with
  | nil =>
    intro acc entries h p hp
    cases h
    exact Or.inl hp
  | cons e rest ih =>
    intro acc entries h p hp
    rw [lineBranchGo] at h
    cases hloc : e.locations with
    | nil =>
      rw [hloc] at h
      cases h
    | cons l ls =>
      rw [hloc] at h
      simp only [List.head?_cons] at h
      rcases ih _ entries h p hp with hin | ⟨e2, l2, hmem2, hl2, hp2⟩
      · rcases jsSet_mem acc _ _ p hin with hin2 | rfl
        · exact Or.inl hin2
        · exact Or.inr ⟨e, l, List.mem_cons_self e rest, by rw [hloc]; rfl, rfl⟩
      · exact Or.inr ⟨e2, l2, List.mem_cons_of_mem e hmem2, hl2, hp2⟩

/-- Claim C1: for batch size B at least one and an in-memory record list, a
clean run of jsonProcessing performs exactly ceil of length over B
compile-and-execute rounds, the batch of round i being the contiguous slice
of the records from i times B of length at most B, taken in order.
Moreover every failure-report entry is keyed by the global ordinal of its
originating record: in the data branch, an entry produced for the record
block at local index j of batch i (the j-th document line after the mode
keyword, whose alias is flagged false and whose reconstructed arguments
matched an error) is keyed record followed by B times i plus j plus one;
and in the line-number branch, an entry produced for an error whose first
location points at line j plus two — the line of the record block at local
index j — carries the same key record followed by B times i plus j plus
one. -/
theorem c1_jsonProcessing_batches (B1 : Nat) (records : List Record)
    (dmd : DataModelDefinition) (isVal : Bool) (AD : String) (exec : String → GqlResponse)
    (hclean : ∀ d, (exec d).errors = none)
    (hcomp : ∀ i, i < (records.length + B1) / (B1 + 1) →
      ∃ d, generateQueries ((records.drop (i * (B1 + 1))).take (B1 + 1)) dmd
        (if isVal then false else true) AD = Except.ok d) :
    (∃ docs, jsonProcessing records dmd isVal AD (B1 + 1) exec = (docs, none)
      ∧ docs.length = (records.length + B1) / (B1 + 1)
      ∧ ∀ i (hi : i < docs.length),
          generateQueries ((records.drop (i * (B1 + 1))).take (B1 + 1)) dmd
            (if isVal then false else true) AD = Except.ok (docs.get ⟨i, hi⟩))
    ∧ (∀ (qs : String) (d : List (String × JsVal)) (errs : List GqlError) (i : Nat)
        (entries : List (String × ParsedEntry)),
        responseParser qs ⟨some d, some errs⟩ (B1 + 1) i = Except.ok entries →
        ∀ p ∈ entries, ∃ j k q rest1 m,
          (((jsSplit qs "\n").drop 1).dropLast).get? j = some q ∧
          jsLookup d ((jsSplit q ": ").headD "") = some (.vbool false) ∧
          (jsSplit q ": ").get? 1 = some rest1 ∧
          reconstructArgs rest1 = Except.ok m ∧
          matchError (errs.map errInput) m = some k ∧
          p = ("record" ++ toString ((B1 + 1) * i + j + 1),
               (⟨none, errs.getD k defaultGqlError⟩ : ParsedEntry)))
    ∧ (∀ (qs : String) (errs : List GqlError) (i : Nat)
        (entries : List (String × ParsedEntry)),
        responseParser qs ⟨none, some errs⟩ (B1 + 1) i = Except.ok entries →
        ∀ p ∈ entries, ∃ e l, e ∈ errs ∧ e.locations.head? = some l ∧
          p = ("record" ++ toString (((B1 + 1 : Nat) : Int) * (i : Int) + (l - 1)),
               (⟨jsIndex (((jsSplit qs "\n").drop 1).dropLast) (l - 1 - 1), e⟩ : ParsedEntry)) ∧
          ∀ j : Nat, l = (j : Int) + 2 →
            "record" ++ toString (((B1 + 1 : Nat) : Int) * (i : Int) + (l - 1))
              = "record" ++ toString ((B1 + 1) * i + j + 1)) := by
  refine ⟨?_, ?_, ?_⟩
  · obtain ⟨docs, hgo, hlen, hget⟩ := jsonProcessingGo_clean dmd
      (if isVal then false else true) AD B1 exec records hclean
      records.length records.length 0 (le_refl _)
      (fun i hi1 hi2 => hcomp i (by omega))
    refine ⟨docs, hgo, hlen, fun i hi => ?_⟩
    have := hget i hi
    rwa [Nat.zero_add] at this
  · intro qs d errs i entries h p hp
    simp only [responseParser] at h
    rw [dataBranch] at h
    split at h
    · cases h
    · rename_i pairs hpairs
      cases h
      obtain ⟨pr, hpr, rfl⟩ := List.mem_map.mp hp
      rcases buildMapQueriesGo_sound d (errs.map errInput)
          (((jsSplit qs "\n").drop 1).dropLast) 0 [] pairs hpairs pr hpr with
        hin | ⟨q, rest1, m, _, hget, hflag, hrest1, hrec, hmatch⟩
      · exact absurd hin (List.not_mem_nil pr)
      · rw [Nat.sub_zero] at hget
        exact ⟨pr.1, pr.2, q, rest1, m, hget, hflag, hrest1, hrec, hmatch, rfl⟩
  · intro qs errs i entries h p hp
    simp only [responseParser] at h
    rcases lineBranchGo_mem (((jsSplit qs "\n").drop 1).dropLast) (B1 + 1) i errs []
        entries h p hp with hin | ⟨e, l, hmem, hl, hp2⟩
    · exact absurd hin (List.not_mem_nil p)
    · refine ⟨e, l, hmem, hl, hp2, ?_⟩
      intro j hj
      subst hj
      have harith : ((B1 + 1 : Nat) : Int) * (i : Int) + ((j : Int) + 2 - 1)
          = (((B1 + 1) * i + j + 1 : Nat) : Int) := by
        push_cast
        ring
      rw [harith, toString_int_ofNat]

/-- Witness for C1: three records with batch size two give exactly two clean
rounds; and a concrete failing data-branch response at batch number three is
keyed by the global ordinal of its originating alias, record7 for local
index zero of batch three with batch size two. -/
theorem c1_jsonProcessing_batches_witness :
    (∃ docs, jsonProcessing [[("a", "1")], [("a", "2")], [("a", "3")]]
        ⟨"foo1", "fid", [("a", "Int")], []⟩ false "," 2 (fun _ => ⟨none, none⟩)
      = (docs, none) ∧ docs.length = 2)
    ∧ ∃ j k q rest1 m,
        (((jsSplit "\x7b\nn1: validateFoo1ForCreation(c:7)\n\x7d" "\n").drop 1).dropLast).get? j
          = some q ∧
        jsLookup [("n1", JsVal.vbool false)] ((jsSplit q ": ").headD "")
          = some (.vbool false) ∧
        (jsSplit q ": ").get? 1 = some rest1 ∧
        reconstructArgs rest1 = Except.ok m ∧
        matchError ([(⟨"e1", some [("c", JsVal.vint 7)], none, []⟩ : GqlError)].map errInput) m
          = some k ∧
        (("record7", (⟨none, ⟨"e1", some [("c", JsVal.vint 7)], none, []⟩⟩ : ParsedEntry))
            : String × ParsedEntry)
          = ("record" ++ toString (2 * 3 + j + 1),
             (⟨none, [(⟨"e1", some [("c", JsVal.vint 7)], none, []⟩ : GqlError)].getD k
               defaultGqlError⟩ : ParsedEntry)) := by
  have hcomp : ∀ i, i < (([[("a", "1")], [("a", "2")], [("a", "3")]] : List Record).length + 1) / (1 + 1) →
      ∃ dq, generateQueries ((([[("a", "1")], [("a", "2")], [("a", "3")]] : List Record).drop
        (i * (1 + 1))).take (1 + 1)) ⟨"foo1", "fid", [("a", "Int")], []⟩
        (if false then false else true) "," = Except.ok dq := by
    intro i hi
    match i with
    | 0 => exact ⟨_, rfl⟩
    | 1 => exact ⟨_, rfl⟩
    | j + 2 =>
      have h2 : (([[("a", "1")], [("a", "2")], [("a", "3")]] : List Record).length + 1) / (1 + 1)
          = 2 := by decide
      omega
  obtain ⟨⟨docs, h1, h2, h3⟩, hkey, hline⟩ := c1_jsonProcessing_batches 1
    [[("a", "1")], [("a", "2")], [("a", "3")]] ⟨"foo1", "fid", [("a", "Int")], []⟩
    false "," (fun _ => ⟨none, none⟩) (fun _ => rfl) hcomp
  refine ⟨⟨docs, h1, by rw [h2]; decide⟩, ?_⟩
  exact hkey "\x7b\nn1: validateFoo1ForCreation(c:7)\n\x7d" [("n1", JsVal.vbool false)]
    [⟨"e1", some [("c", JsVal.vint 7)], none, []⟩] 3
    [("record7", ⟨none, ⟨"e1", some [("c", JsVal.vint 7)], none, []⟩⟩)] (by decide)
    ("record7", ⟨none, ⟨"e1", some [("c", JsVal.vint 7)], none, []⟩⟩)
    (List.mem_singleton.mpr rfl)
